import Mathlib

/-!
Verification of the read-only SQL gatekeeper of this repository
(three dialect adapters: MySQL, PostgreSQL, SQLite).

Strings are modelled as `List Char` (the Go code indexes raw bytes; all
inputs of interest are ASCII, where bytes and characters coincide).  Each
Go function is translated one-to-one:

* `MySQLAdapter.RemoveStringsAndComments`    → `stripMySQL`
* `PostgresAdapter.RemoveStringsAndComments` → `stripPostgres`
* `SQLiteAdapter.RemoveStringsAndComments`   → `stripSQLite`
* `validateCommon`                           → `validateCommon`
* `MySQLAdapter.ValidateQuery`               → `mysqlValidate`
* `PostgresAdapter.ValidateQuery`            → `pgValidate`
* `SQLiteAdapter.ValidateQuery`              → `sqliteValidate`

Regular expressions in the Go source are embedded by their matching
semantics (a `MatchString` call holds iff some position of the subject
admits a match), via executable scanners defined below.

The scanners of the Go source advance a cursor `i` over `sql` while
`i < n`; every iteration advances the cursor by at least one, so the
loop runs at most `len(sql)` times.  The Lean embedding makes this
explicit with a fuel argument initialised to the length of the input;
`stripMySQLA_congr` and its siblings prove that any sufficient fuel
gives the same result, so the fuel is an artifact of the translation,
not of the modelled program.
-/

/-- shorthand turning a string literal into the character list model. -/
def str (s : String) : List Char := s.data

/-- single-quote character `'` (written via its code point). -/
def squote : Char := Char.ofNat 39

/-- double-quote character `"` (written via its code point). -/
def dquote : Char := Char.ofNat 34

/-- backtick character (written via its code point). -/
def btick : Char := Char.ofNat 96

/-- backslash character (written via its code point). -/
def bslash : Char := Char.ofNat 92

/-- vertical-tab character. -/
def vtab : Char := Char.ofNat 11

/-- form-feed character. -/
def ffeed : Char := Char.ofNat 12

/-- whitespace in the sense of Go `unicode.IsSpace` restricted to ASCII,
as used by `strings.TrimSpace`. -/
def wsGo (c : Char) : Bool :=
  (c == ' ') || (c == '\t') || (c == '\n') || (c == vtab) || (c == ffeed) || (c == '\r')

/-- whitespace in the sense of the RE2 class `\s` (no vertical tab). -/
def wsRe (c : Char) : Bool :=
  (c == '\t') || (c == '\n') || (c == ffeed) || (c == '\r') || (c == ' ')

/-- the RE2 word-character class `\w` = `[0-9A-Za-z_]`, used by `\b`. -/
def wordChar (c : Char) : Bool :=
  (decide ('0' ≤ c) && decide (c ≤ '9')) || (decide ('A' ≤ c) && decide (c ≤ 'Z')) ||
    (decide ('a' ≤ c) && decide (c ≤ 'z')) || (c == '_')

/-- the identifier class `[a-zA-Z_]` used by the keyword regexes. -/
def identAZ (c : Char) : Bool :=
  (decide ('A' ≤ c) && decide (c ≤ 'Z')) || (decide ('a' ≤ c) && decide (c ≤ 'z')) || (c == '_')

/-- ASCII upper-casing of one character, as done by Go `strings.ToUpper`
on ASCII input. -/
def upChar (c : Char) : Char :=
  if 'a' ≤ c ∧ c ≤ 'z' then Char.ofNat (c.toNat - 32) else c

/-- ASCII upper-casing of a character list. -/
def upperL (s : List Char) : List Char := s.map upChar

/-- Go `strings.TrimSpace` on ASCII input. -/
def trimGo (s : List Char) : List Char :=
  List.rdropWhile wsGo (List.dropWhile wsGo s)

/-- Go scanner helper: skip to the end of a line comment.  Models the Go
loop `for i < n && sql[i] != newline ; i++` and returns the rest of the
input starting at the newline (or the empty rest). -/
def dropLine (s : List Char) : List Char := List.dropWhile (fun c => !(c == '\n')) s

/-- Go scanner helper: body of a block comment after the opening pair.
Models `i += 2; for i+1 < n && not close ; i++; i += 2` and returns the
rest of the input after the closing delimiter; an unterminated comment
consumes everything. -/
def skipBlock : List Char → List Char
  | [] => []
  | [_] => []
  | a :: b :: r => if a = '*' ∧ b = '/' then r else skipBlock (b :: r)

/-- Go scanner helper: single-quoted string body with backslash escaping
(MySQL); returns the rest after the closing quote, consuming doubled
quotes and backslash-escaped characters. -/
def skipSqM : List Char → List Char
  | [] => []
  | [_] => []
  | c :: c2 :: r =>
    if c = squote then
      if c2 = squote then skipSqM r else c2 :: r
    else if c = bslash then skipSqM r
    else skipSqM (c2 :: r)

/-- Go scanner helper: double-quoted string body with backslash escaping
(MySQL); same shape as `skipSqM` with the other quote character. -/
def skipDqM : List Char → List Char
  | [] => []
  | [_] => []
  | c :: c2 :: r =>
    if c = dquote then
      if c2 = dquote then skipDqM r else c2 :: r
    else if c = bslash then skipDqM r
    else skipDqM (c2 :: r)

/-- Go scanner helper: single-quoted string body without backslash
escaping (PostgreSQL and SQLite). -/
def skipSq : List Char → List Char
  | [] => []
  | [_] => []
  | c :: c2 :: r =>
    if c = squote then
      if c2 = squote then skipSq r else c2 :: r
    else skipSq (c2 :: r)

/-- Go scanner helper: double-quoted identifier body copied through
verbatim with doubled-quote escapes (PostgreSQL and SQLite); returns the
copied text (including the closing quote when present) and the rest. -/
def copyDq : List Char → List Char × List Char
  | [] => ([], [])
  | [c] => if c = dquote then ([dquote], []) else ([c], [])
  | c :: c2 :: r =>
    if c = dquote then
      if c2 = dquote then
        let p := copyDq r
        (dquote :: dquote :: p.1, p.2)
      else ([dquote], c2 :: r)
    else
      let p := copyDq (c2 :: r)
      (c :: p.1, p.2)

/-- Go scanner helper: backtick-quoted identifier body copied through
verbatim; returns the copied text (including the closing backtick when
present) and the rest. -/
def copyTick : List Char → List Char × List Char
  | [] => ([], [])
  | c :: r =>
    if c = btick then ([btick], r)
    else
      let p := copyTick r
      (c :: p.1, p.2)

/-- Go scanner helper: bracket-quoted identifier body copied through
verbatim (SQLite); returns the copied text (including the closing
bracket when present) and the rest. -/
def copyBrack : List Char → List Char × List Char
  | [] => ([], [])
  | c :: r =>
    if c = ']' then ([']'], r)
    else
      let p := copyBrack r
      (c :: p.1, p.2)

/-- index of the first occurrence of a character, as `strings.Index`
with a one-character needle. -/
def idxOf : Char → List Char → Option Nat
  | _, [] => none
  | c, a :: r => if a = c then some 0 else (idxOf c r).map (· + 1)

/-- Go `strings.Index`: index of the first occurrence of a substring. -/
def subIdx (pat : List Char) : List Char → Option Nat
  | [] => if pat = [] then some 0 else none
  | a :: r => if pat.isPrefixOf (a :: r) then some 0 else (subIdx pat r).map (· + 1)

/-- the scanner of `MySQLAdapter.RemoveStringsAndComments`, with fuel
(see the module comment).  Branch order is the order of the Go `if`
chain: line comment, hash comment, block comment, single-quoted string,
double-quoted string, backtick identifier, ordinary character. -/
def stripMySQLA : Nat → List Char → List Char
  | 0, _ => []
  | fuel + 1, s =>
    match s with
    | [] => []
    | c :: r =>
      if c = '-' ∧ r.head? = some '-' then ' ' :: stripMySQLA fuel (dropLine r)
      else if c = '#' then ' ' :: stripMySQLA fuel (dropLine r)
      else if c = '/' ∧ r.head? = some '*' then ' ' :: stripMySQLA fuel (skipBlock r.tail)
      else if c = squote then squote :: squote :: stripMySQLA fuel (skipSqM r)
      else if c = dquote then dquote :: dquote :: stripMySQLA fuel (skipDqM r)
      else if c = btick then btick :: ((copyTick r).1 ++ stripMySQLA fuel (copyTick r).2)
      else c :: stripMySQLA fuel r

/-- `MySQLAdapter.RemoveStringsAndComments`. -/
def stripMySQL (s : List Char) : List Char := stripMySQLA s.length s

theorem length_dropWhileB_le (p : Char → Bool) :
    ∀ s : List Char, (List.dropWhile p s).length ≤ s.length := by
  intro s
  induction s with
  | nil => simp
  | cons c r ih =>
    by_cases h : p c
    · rw [List.dropWhile_cons_of_pos h]
      exact le_trans ih (by simp)
    · rw [List.dropWhile_cons_of_neg h]

theorem length_dropLine_le (s : List Char) : (dropLine s).length ≤ s.length :=
  length_dropWhileB_le _ s

theorem length_tail_le (s : List Char) : s.tail.length ≤ s.length := by
  cases s <;> simp

theorem length_skipBlock_le : ∀ s : List Char, (skipBlock s).length ≤ s.length := by
  intro s
  induction s using skipBlock.induct with
  | case1 => simp [skipBlock]
  | case2 => simp [skipBlock]
  | case3 a b r h =>
    rw [skipBlock, if_pos h]
    simp only [List.length_cons]
    omega
  | case4 a b r h ih =>
    rw [skipBlock, if_neg h]
    exact le_trans ih (by simp)

theorem length_skipSqM_le : ∀ s : List Char, (skipSqM s).length ≤ s.length := by
  intro s
  induction s using skipSqM.induct <;> simp_all [skipSqM] <;> omega

theorem length_skipDqM_le : ∀ s : List Char, (skipDqM s).length ≤ s.length := by
  intro s
  induction s using skipDqM.induct <;> simp_all [skipDqM] <;> omega

theorem length_skipSq_le : ∀ s : List Char, (skipSq s).length ≤ s.length := by
  intro s
  induction s using skipSq.induct <;> simp_all [skipSq] <;> omega

theorem length_copyTick_le : ∀ s : List Char, (copyTick s).2.length ≤ s.length := by
  intro s
  induction s using copyTick.induct <;> simp_all [copyTick] <;> omega

theorem length_copyBrack_le : ∀ s : List Char, (copyBrack s).2.length ≤ s.length := by
  intro s
  induction s using copyBrack.induct <;> simp_all [copyBrack] <;> omega

theorem length_copyDq_le : ∀ s : List Char, (copyDq s).2.length ≤ s.length := by
  intro s
  induction s using copyDq.induct <;> simp_all [copyDq] <;> omega

theorem stripMySQLA_congr :
    ∀ f g s, s.length ≤ f → s.length ≤ g → stripMySQLA f s = stripMySQLA g s := by
  intro f
  induction f with
  | zero =>
    intro g s hf _
    have : s = [] := List.length_eq_zero.mp (Nat.le_zero.mp hf)
    subst this
    cases g <;> simp [stripMySQLA]
  | succ f ih =>
    intro g s hf hg
    cases g with
    | zero =>
      have : s = [] := List.length_eq_zero.mp (Nat.le_zero.mp hg)
      subst this
      simp [stripMySQLA]
    | succ g =>
      cases s with
      | nil => simp [stripMySQLA]
      | cons c r =>
        simp only [List.length_cons, Nat.succ_le_succ_iff] at hf hg
        simp only [stripMySQLA]
        split
        · rw [ih g (dropLine r) (le_trans (length_dropLine_le r) hf)
            (le_trans (length_dropLine_le r) hg)]
        · split
          · rw [ih g (dropLine r) (le_trans (length_dropLine_le r) hf)
              (le_trans (length_dropLine_le r) hg)]
          · split
            · rw [ih g (skipBlock r.tail)
                (le_trans (le_trans (length_skipBlock_le r.tail) (length_tail_le r)) hf)
                (le_trans (le_trans (length_skipBlock_le r.tail) (length_tail_le r)) hg)]
            · split
              · rw [ih g (skipSqM r) (le_trans (length_skipSqM_le r) hf)
                  (le_trans (length_skipSqM_le r) hg)]
              · split
                · rw [ih g (skipDqM r) (le_trans (length_skipDqM_le r) hf)
                    (le_trans (length_skipDqM_le r) hg)]
                · split
                  · rw [ih g (copyTick r).2 (le_trans (length_copyTick_le r) hf)
                      (le_trans (length_copyTick_le r) hg)]
                  · rw [ih g r hf hg]

/-- dollar-quote recogniser of the PostgreSQL scanner: at a position
starting with a dollar sign, mirror the Go code
`tagEnd := strings.Index(sql[i+1:], "$")`, `tag := sql[i:i+tagEnd+2]`,
`closeIdx := strings.Index(sql[i+len(tag):], tag)`, and on success
return the rest of the input after the closing tag
(`i += len(tag) + closeIdx + len(tag)`); `none` means the branch falls
through. -/
def dollarRest (s : List Char) : Option (List Char) :=
  match s with
  | [] => none
  | _ :: t =>
    match idxOf '$' t with
    | none => none
    | some k =>
      match subIdx (s.take (k + 2)) (s.drop (k + 2)) with
      | none => none
      | some cl => some ((s.drop (k + 2)).drop (cl + (s.take (k + 2)).length))

/-- the scanner of `PostgresAdapter.RemoveStringsAndComments`, with fuel.
Branch order: line comment, block comment, dollar-quoted string (falling
through to the later branches when no complete dollar quote is found),
single-quoted string, double-quoted identifier (copied through),
ordinary character. -/
def stripPostgresA : Nat → List Char → List Char
  | 0, _ => []
  | fuel + 1, s =>
    match s with
    | [] => []
    | c :: r =>
      if c = '-' ∧ r.head? = some '-' then ' ' :: stripPostgresA fuel (dropLine r)
      else if c = '/' ∧ r.head? = some '*' then ' ' :: stripPostgresA fuel (skipBlock r.tail)
      else if h : c = '$' ∧ (dollarRest (c :: r)).isSome then
        squote :: squote :: stripPostgresA fuel ((dollarRest (c :: r)).get h.2)
      else if c = squote then squote :: squote :: stripPostgresA fuel (skipSq r)
      else if c = dquote then dquote :: ((copyDq r).1 ++ stripPostgresA fuel (copyDq r).2)
      else c :: stripPostgresA fuel r

/-- `PostgresAdapter.RemoveStringsAndComments`. -/
def stripPostgres (s : List Char) : List Char := stripPostgresA s.length s

theorem idxOf_lt_length : ∀ (c : Char) (l : List Char) (k : Nat),
    idxOf c l = some k → k < l.length := by
  intro c l
  induction l with
  | nil => intro k h; simp [idxOf] at h
  | cons a r ih =>
    intro k h
    simp only [idxOf] at h
    by_cases ha : a = c
    · rw [if_pos ha] at h
      simp only [Option.some.injEq] at h
      subst h
      simp
    · rw [if_neg ha] at h
      rcases hk : idxOf c r with _ | k2
      · rw [hk] at h; exact absurd h (by simp)
      · rw [hk] at h
        simp only [Option.map_some', Option.some.injEq] at h
        subst h
        have := ih k2 hk
        simp only [List.length_cons]
        omega

theorem length_dollarRest_lt :
    ∀ s t, dollarRest s = some t → t.length + 1 < s.length := by
  intro s t h
  match s with
  | [] => simp [dollarRest] at h
  | c :: r =>
    simp only [dollarRest] at h
    rcases hk : idxOf '$' r with _ | k
    · simp only [hk] at h
      exact absurd h (by simp)
    · simp only [hk] at h
      rcases hc : subIdx ((c :: r).take (k + 2)) ((c :: r).drop (k + 2)) with _ | cl
      · simp only [hc] at h
        exact absurd h (by simp)
      · simp only [hc, Option.some.injEq] at h
        subst h
        have hkl : k < r.length := idxOf_lt_length '$' r k hk
        have htake : ((c :: r).take (k + 2)).length = k + 2 := by
          rw [List.length_take]
          simp only [List.length_cons]
          omega
        rw [List.length_drop, List.length_drop, htake]
        simp only [List.length_cons]
        omega

/-- the scanner of `SQLiteAdapter.RemoveStringsAndComments`, with fuel.
Branch order: line comment, block comment, single-quoted string,
double-quoted identifier (copied through), backtick identifier,
bracket identifier, ordinary character. -/
def stripSQLiteA : Nat → List Char → List Char
  | 0, _ => []
  | fuel + 1, s =>
    match s with
    | [] => []
    | c :: r =>
      if c = '-' ∧ r.head? = some '-' then ' ' :: stripSQLiteA fuel (dropLine r)
      else if c = '/' ∧ r.head? = some '*' then ' ' :: stripSQLiteA fuel (skipBlock r.tail)
      else if c = squote then squote :: squote :: stripSQLiteA fuel (skipSq r)
      else if c = dquote then dquote :: ((copyDq r).1 ++ stripSQLiteA fuel (copyDq r).2)
      else if c = btick then btick :: ((copyTick r).1 ++ stripSQLiteA fuel (copyTick r).2)
      else if c = '[' then '[' :: ((copyBrack r).1 ++ stripSQLiteA fuel (copyBrack r).2)
      else c :: stripSQLiteA fuel r

/-- `SQLiteAdapter.RemoveStringsAndComments`. -/
def stripSQLite (s : List Char) : List Char := stripSQLiteA s.length s

theorem stripPostgresA_congr :
    ∀ f g s, s.length ≤ f → s.length ≤ g → stripPostgresA f s = stripPostgresA g s := by
  intro f
  induction f with
  | zero =>
    intro g s hf _
    have : s = [] := List.length_eq_zero.mp (Nat.le_zero.mp hf)
    subst this
    cases g <;> simp [stripPostgresA]
  | succ f ih =>
    intro g s hf hg
    cases g with
    | zero =>
      have : s = [] := List.length_eq_zero.mp (Nat.le_zero.mp hg)
      subst this
      simp [stripPostgresA]
    | succ g =>
      cases s with
      | nil => simp [stripPostgresA]
      | cons c r =>
        simp only [List.length_cons, Nat.succ_le_succ_iff] at hf hg
        simp only [stripPostgresA]
        split
        · rw [ih g (dropLine r) (le_trans (length_dropLine_le r) hf)
            (le_trans (length_dropLine_le r) hg)]
        · split
          · rw [ih g (skipBlock r.tail)
              (le_trans (le_trans (length_skipBlock_le r.tail) (length_tail_le r)) hf)
              (le_trans (le_trans (length_skipBlock_le r.tail) (length_tail_le r)) hg)]
          · split
            · rename_i h
              have hlen : ((dollarRest (c :: r)).get h.2).length + 1 < r.length + 1 := by
                have := length_dollarRest_lt (c :: r) ((dollarRest (c :: r)).get h.2)
                  (Option.eq_some_of_isSome h.2 ▸ rfl)
                simpa using this
              rw [ih g ((dollarRest (c :: r)).get h.2) (by omega) (by omega)]
            · split
              · rw [ih g (skipSq r) (le_trans (length_skipSq_le r) hf)
                  (le_trans (length_skipSq_le r) hg)]
              · split
                · rw [ih g (copyDq r).2 (le_trans (length_copyDq_le r) hf)
                    (le_trans (length_copyDq_le r) hg)]
                · rw [ih g r hf hg]

theorem stripSQLiteA_congr :
    ∀ f g s, s.length ≤ f → s.length ≤ g → stripSQLiteA f s = stripSQLiteA g s := by
  intro f
  induction f with
  | zero =>
    intro g s hf _
    have : s = [] := List.length_eq_zero.mp (Nat.le_zero.mp hf)
    subst this
    cases g <;> simp [stripSQLiteA]
  | succ f ih =>
    intro g s hf hg
    cases g with
    | zero =>
      have : s = [] := List.length_eq_zero.mp (Nat.le_zero.mp hg)
      subst this
      simp [stripSQLiteA]
    | succ g =>
      cases s with
      | nil => simp [stripSQLiteA]
      | cons c r =>
        simp only [List.length_cons, Nat.succ_le_succ_iff] at hf hg
        simp only [stripSQLiteA]
        split
        · rw [ih g (dropLine r) (le_trans (length_dropLine_le r) hf)
            (le_trans (length_dropLine_le r) hg)]
        · split
          · rw [ih g (skipBlock r.tail)
              (le_trans (le_trans (length_skipBlock_le r.tail) (length_tail_le r)) hf)
              (le_trans (le_trans (length_skipBlock_le r.tail) (length_tail_le r)) hg)]
          · split
            · rw [ih g (skipSq r) (le_trans (length_skipSq_le r) hf)
                (le_trans (length_skipSq_le r) hg)]
            · split
              · rw [ih g (copyDq r).2 (le_trans (length_copyDq_le r) hf)
                  (le_trans (length_copyDq_le r) hg)]
              · split
                · rw [ih g (copyTick r).2 (le_trans (length_copyTick_le r) hf)
                    (le_trans (length_copyTick_le r) hg)]
                · split
                  · rw [ih g (copyBrack r).2 (le_trans (length_copyBrack_le r) hf)
                      (le_trans (length_copyBrack_le r) hg)]
                  · rw [ih g r hf hg]

theorem stripMySQLA_eq (f : Nat) (s : List Char) (h : s.length ≤ f) :
    stripMySQLA f s = stripMySQL s :=
  stripMySQLA_congr f s.length s h le_rfl

theorem stripPostgresA_eq (f : Nat) (s : List Char) (h : s.length ≤ f) :
    stripPostgresA f s = stripPostgres s :=
  stripPostgresA_congr f s.length s h le_rfl

theorem stripSQLiteA_eq (f : Nat) (s : List Char) (h : s.length ≤ f) :
    stripSQLiteA f s = stripSQLite s :=
  stripSQLiteA_congr f s.length s h le_rfl

theorem stripMySQL_nil : stripMySQL [] = [] := rfl

theorem stripMySQL_dash (r : List Char) (h : r.head? = some '-') :
    stripMySQL ('-' :: r) = ' ' :: stripMySQL (dropLine r) := by
  show stripMySQLA (r.length + 1) ('-' :: r) = _
  simp only [stripMySQLA]
  rw [if_pos ⟨trivial, h⟩, stripMySQLA_eq r.length (dropLine r) (length_dropLine_le r)]

theorem stripMySQL_hash (r : List Char) :
    stripMySQL ('#' :: r) = ' ' :: stripMySQL (dropLine r) := by
  show stripMySQLA (r.length + 1) ('#' :: r) = _
  simp only [stripMySQLA]
  rw [if_neg (fun hh => absurd hh.1 (by decide)), if_pos trivial,
    stripMySQLA_eq r.length (dropLine r) (length_dropLine_le r)]

theorem stripMySQL_block (r : List Char) (h : r.head? = some '*') :
    stripMySQL ('/' :: r) = ' ' :: stripMySQL (skipBlock r.tail) := by
  show stripMySQLA (r.length + 1) ('/' :: r) = _
  simp only [stripMySQLA]
  rw [if_neg (fun hh => absurd hh.1 (by decide)), if_neg (by decide), if_pos ⟨trivial, h⟩,
    stripMySQLA_eq r.length (skipBlock r.tail)
      (le_trans (length_skipBlock_le r.tail) (length_tail_le r))]

theorem stripMySQL_sq (r : List Char) :
    stripMySQL (squote :: r) = squote :: squote :: stripMySQL (skipSqM r) := by
  show stripMySQLA (r.length + 1) (squote :: r) = _
  simp only [stripMySQLA]
  rw [if_neg (fun hh => absurd hh.1 (by decide)), if_neg (by decide),
    if_neg (fun hh => absurd hh.1 (by decide)), if_pos trivial,
    stripMySQLA_eq r.length (skipSqM r) (length_skipSqM_le r)]

theorem stripMySQL_dq (r : List Char) :
    stripMySQL (dquote :: r) = dquote :: dquote :: stripMySQL (skipDqM r) := by
  show stripMySQLA (r.length + 1) (dquote :: r) = _
  simp only [stripMySQLA]
  rw [if_neg (fun hh => absurd hh.1 (by decide)), if_neg (by decide),
    if_neg (fun hh => absurd hh.1 (by decide)), if_neg (by decide), if_pos trivial,
    stripMySQLA_eq r.length (skipDqM r) (length_skipDqM_le r)]

theorem stripMySQL_tick (r : List Char) :
    stripMySQL (btick :: r) = btick :: ((copyTick r).1 ++ stripMySQL (copyTick r).2) := by
  show stripMySQLA (r.length + 1) (btick :: r) = _
  simp only [stripMySQLA]
  rw [if_neg (fun hh => absurd hh.1 (by decide)), if_neg (by decide),
    if_neg (fun hh => absurd hh.1 (by decide)), if_neg (by decide), if_neg (by decide),
    if_pos trivial,
    stripMySQLA_eq r.length (copyTick r).2 (length_copyTick_le r)]

theorem stripMySQL_ord (c : Char) (r : List Char)
    (h1 : ¬(c = '-' ∧ r.head? = some '-')) (h2 : c ≠ '#')
    (h3 : ¬(c = '/' ∧ r.head? = some '*'))
    (h4 : c ≠ squote) (h5 : c ≠ dquote) (h6 : c ≠ btick) :
    stripMySQL (c :: r) = c :: stripMySQL r := by
  show stripMySQLA (r.length + 1) (c :: r) = _
  simp only [stripMySQLA]
  rw [if_neg h1, if_neg h2, if_neg h3, if_neg h4, if_neg h5, if_neg h6]
  rfl

theorem stripPostgres_nil : stripPostgres [] = [] := rfl

theorem stripPostgres_dash (r : List Char) (h : r.head? = some '-') :
    stripPostgres ('-' :: r) = ' ' :: stripPostgres (dropLine r) := by
  show stripPostgresA (r.length + 1) ('-' :: r) = _
  simp only [stripPostgresA]
  rw [if_pos ⟨trivial, h⟩, stripPostgresA_eq r.length (dropLine r) (length_dropLine_le r)]

theorem stripPostgres_block (r : List Char) (h : r.head? = some '*') :
    stripPostgres ('/' :: r) = ' ' :: stripPostgres (skipBlock r.tail) := by
  show stripPostgresA (r.length + 1) ('/' :: r) = _
  simp only [stripPostgresA]
  rw [if_neg (fun hh => absurd hh.1 (by decide)), if_pos ⟨trivial, h⟩,
    stripPostgresA_eq r.length (skipBlock r.tail)
      (le_trans (length_skipBlock_le r.tail) (length_tail_le r))]

theorem stripPostgres_dollar (r t : List Char) (h : dollarRest ('$' :: r) = some t) :
    stripPostgres ('$' :: r) = squote :: squote :: stripPostgres t := by
  show stripPostgresA (r.length + 1) ('$' :: r) = _
  simp only [stripPostgresA]
  rw [if_neg (fun hh => absurd hh.1 (by decide)),
    if_neg (fun hh => absurd hh.1 (by decide))]
  have hs : (dollarRest ('$' :: r)).isSome := by rw [h]; rfl
  rw [dif_pos ⟨trivial, hs⟩]
  have hget : (dollarRest ('$' :: r)).get hs = t := by
    simp [h]
  rw [hget, stripPostgresA_eq r.length t
    (by have := length_dollarRest_lt ('$' :: r) t h; simp at this; omega)]

theorem stripPostgres_dollarFree (r : List Char) (h : dollarRest ('$' :: r) = none) :
    stripPostgres ('$' :: r) = '$' :: stripPostgres r := by
  show stripPostgresA (r.length + 1) ('$' :: r) = _
  simp only [stripPostgresA]
  rw [if_neg (fun hh => absurd hh.1 (by decide)),
    if_neg (fun hh => absurd hh.1 (by decide)),
    dif_neg (fun hh => by rw [h] at hh; exact absurd hh.2 (by simp)),
    if_neg (by decide), if_neg (by decide)]
  rfl

theorem stripPostgres_sq (r : List Char) :
    stripPostgres (squote :: r) = squote :: squote :: stripPostgres (skipSq r) := by
  show stripPostgresA (r.length + 1) (squote :: r) = _
  simp only [stripPostgresA]
  rw [if_neg (fun hh => absurd hh.1 (by decide)),
    if_neg (fun hh => absurd hh.1 (by decide)),
    dif_neg (fun hh => absurd hh.1 (by decide)), if_pos trivial,
    stripPostgresA_eq r.length (skipSq r) (length_skipSq_le r)]

theorem stripPostgres_dq (r : List Char) :
    stripPostgres (dquote :: r) = dquote :: ((copyDq r).1 ++ stripPostgres (copyDq r).2) := by
  show stripPostgresA (r.length + 1) (dquote :: r) = _
  simp only [stripPostgresA]
  rw [if_neg (fun hh => absurd hh.1 (by decide)),
    if_neg (fun hh => absurd hh.1 (by decide)),
    dif_neg (fun hh => absurd hh.1 (by decide)), if_neg (by decide), if_pos trivial,
    stripPostgresA_eq r.length (copyDq r).2 (length_copyDq_le r)]

theorem stripPostgres_ord (c : Char) (r : List Char)
    (h1 : ¬(c = '-' ∧ r.head? = some '-'))
    (h2 : ¬(c = '/' ∧ r.head? = some '*'))
    (h3 : c ≠ '$') (h4 : c ≠ squote) (h5 : c ≠ dquote) :
    stripPostgres (c :: r) = c :: stripPostgres r := by
  show stripPostgresA (r.length + 1) (c :: r) = _
  simp only [stripPostgresA]
  rw [if_neg h1, if_neg h2, dif_neg (fun hh => absurd hh.1 h3), if_neg h4, if_neg h5]
  rfl

theorem stripSQLite_nil : stripSQLite [] = [] := rfl

theorem stripSQLite_dash (r : List Char) (h : r.head? = some '-') :
    stripSQLite ('-' :: r) = ' ' :: stripSQLite (dropLine r) := by
  show stripSQLiteA (r.length + 1) ('-' :: r) = _
  simp only [stripSQLiteA]
  rw [if_pos ⟨trivial, h⟩, stripSQLiteA_eq r.length (dropLine r) (length_dropLine_le r)]

theorem stripSQLite_block (r : List Char) (h : r.head? = some '*') :
    stripSQLite ('/' :: r) = ' ' :: stripSQLite (skipBlock r.tail) := by
  show stripSQLiteA (r.length + 1) ('/' :: r) = _
  simp only [stripSQLiteA]
  rw [if_neg (fun hh => absurd hh.1 (by decide)), if_pos ⟨trivial, h⟩,
    stripSQLiteA_eq r.length (skipBlock r.tail)
      (le_trans (length_skipBlock_le r.tail) (length_tail_le r))]

theorem stripSQLite_sq (r : List Char) :
    stripSQLite (squote :: r) = squote :: squote :: stripSQLite (skipSq r) := by
  show stripSQLiteA (r.length + 1) (squote :: r) = _
  simp only [stripSQLiteA]
  rw [if_neg (fun hh => absurd hh.1 (by decide)),
    if_neg (fun hh => absurd hh.1 (by decide)), if_pos trivial,
    stripSQLiteA_eq r.length (skipSq r) (length_skipSq_le r)]

theorem stripSQLite_dq (r : List Char) :
    stripSQLite (dquote :: r) = dquote :: ((copyDq r).1 ++ stripSQLite (copyDq r).2) := by
  show stripSQLiteA (r.length + 1) (dquote :: r) = _
  simp only [stripSQLiteA]
  rw [if_neg (fun hh => absurd hh.1 (by decide)),
    if_neg (fun hh => absurd hh.1 (by decide)), if_neg (by decide), if_pos trivial,
    stripSQLiteA_eq r.length (copyDq r).2 (length_copyDq_le r)]

theorem stripSQLite_tick (r : List Char) :
    stripSQLite (btick :: r) = btick :: ((copyTick r).1 ++ stripSQLite (copyTick r).2) := by
  show stripSQLiteA (r.length + 1) (btick :: r) = _
  simp only [stripSQLiteA]
  rw [if_neg (fun hh => absurd hh.1 (by decide)),
    if_neg (fun hh => absurd hh.1 (by decide)), if_neg (by decide), if_neg (by decide),
    if_pos trivial,
    stripSQLiteA_eq r.length (copyTick r).2 (length_copyTick_le r)]

theorem stripSQLite_brack (r : List Char) :
    stripSQLite ('[' :: r) = '[' :: ((copyBrack r).1 ++ stripSQLite (copyBrack r).2) := by
  show stripSQLiteA (r.length + 1) ('[' :: r) = _
  simp only [stripSQLiteA]
  rw [if_neg (fun hh => absurd hh.1 (by decide)),
    if_neg (fun hh => absurd hh.1 (by decide)), if_neg (by decide), if_neg (by decide),
    if_neg (by decide), if_pos trivial,
    stripSQLiteA_eq r.length (copyBrack r).2 (length_copyBrack_le r)]

theorem stripSQLite_ord (c : Char) (r : List Char)
    (h1 : ¬(c = '-' ∧ r.head? = some '-'))
    (h2 : ¬(c = '/' ∧ r.head? = some '*'))
    (h3 : c ≠ squote) (h4 : c ≠ dquote) (h5 : c ≠ btick) (h6 : c ≠ '[') :
    stripSQLite (c :: r) = c :: stripSQLite r := by
  show stripSQLiteA (r.length + 1) (c :: r) = _
  simp only [stripSQLiteA]
  rw [if_neg h1, if_neg h2, if_neg h3, if_neg h4, if_neg h5, if_neg h6]
  rfl

/-- case-insensitive match of a pattern word at the head of the subject,
returning the rest on success (ASCII case folding, as RE2 `(?i)` does on
the ASCII patterns of the source). -/
def ciStrip : List Char → List Char → Option (List Char)
  | [], s => some s
  | _ :: _, [] => none
  | p :: ps, c :: cs => if upChar c = upChar p then ciStrip ps cs else none

/-- existential scan for a regex that may match at the start of the
subject or anywhere after a character satisfying the boundary class
`pre`; `here` decides a match at a given suffix.  This realises the
`MatchString` semantics of the anchored-or-boundary patterns of the
source. -/
def scanFrom (pre : Char → Bool) (here : List Char → Bool) : List Char → Bool
  | [] => false
  | c :: r => (if pre c then here r else false) || scanFrom pre here r

/-- match anywhere: at the start, or after a boundary character. -/
def patAny (pre : Char → Bool) (here : List Char → Bool) (s : List Char) : Bool :=
  here s || scanFrom pre here s

/-- local matcher for `(?i)(?:^|[^a-zA-Z_])KW(?:[^a-zA-Z_]|$)` at one
position: the keyword followed by a non-identifier character or the end. -/
def kwHere (kw : List Char) (s : List Char) : Bool :=
  match ciStrip kw s with
  | some rest =>
    match rest with
    | [] => true
    | c :: _ => !identAZ c
  | none => false

/-- the whole-word dangerous-keyword regex `(?i)(?:^|[^a-zA-Z_])KW(?:[^a-zA-Z_]|$)`. -/
def kwPat (kw : List Char) (s : List Char) : Bool :=
  patAny (fun c => !identAZ c) (kwHere kw) s

/-- local matcher for `(?i)\bNAME\s*\(` at one position. -/
def funHere (name : List Char) (s : List Char) : Bool :=
  match ciStrip name s with
  | some rest => (rest.dropWhile wsRe).head? == some '('
  | none => false

/-- the forbidden-function regex `(?i)\bNAME\s*\(` (names start with a
word character, so `\b` is a non-word character or the start). -/
def funCallPat (name : List Char) (s : List Char) : Bool :=
  patAny (fun c => !wordChar c) (funHere name) s

/-- local matcher for `(?i)\bINTO\s+WORD\b` at one position. -/
def intoHere (word : List Char) (s : List Char) : Bool :=
  match ciStrip (str "INTO") s with
  | some r =>
    match r with
    | [] => false
    | c :: _ =>
      if wsRe c then
        match ciStrip word (r.dropWhile wsRe) with
        | some rest =>
          match rest with
          | [] => true
          | c2 :: _ => !wordChar c2
        | none => false
      else false
  | none => false

/-- the regex `(?i)\bINTO\s+WORD\b` (used for `INTO OUTFILE` and
`INTO DUMPFILE`). -/
def intoPat (word : List Char) (s : List Char) : Bool :=
  patAny (fun c => !wordChar c) (intoHere word) s

/-- local matcher for `(?i)\bINTO\s+@` at one position. -/
def intoAtHere (s : List Char) : Bool :=
  match ciStrip (str "INTO") s with
  | some r =>
    match r with
    | [] => false
    | c :: _ => wsRe c && ((r.dropWhile wsRe).head? == some '@')
  | none => false

/-- the regex `(?i)\bINTO\s+@`. -/
def intoAtPat (s : List Char) : Bool :=
  patAny (fun c => !wordChar c) intoAtHere s

/-- local matcher for a bare word with a trailing `\b` at one position
(`TO` or `FROM` at the end of the COPY patterns). -/
def wordTailHere (word : List Char) (s : List Char) : Bool :=
  match ciStrip word s with
  | some rest =>
    match rest with
    | [] => true
    | c :: _ => !wordChar c
  | none => false

/-- the `.*\bWORD\b` tail of the COPY patterns: consume any characters
except newline, then match the word with boundaries on both sides;
`prev` is the character preceding the current position. -/
def copyDot (word : List Char) : Char → List Char → Bool
  | prev, s =>
    ((!wordChar prev) && wordTailHere word s) ||
      match s with
      | [] => false
      | c :: r => (!(c == '\n')) && copyDot word c r

/-- the `\s+.*\bWORD\b` tail of the COPY patterns: consume more
whitespace into `\s+` or hand over to `.*`. -/
def copyMid (word : List Char) : Char → List Char → Bool
  | prev, s =>
    copyDot word prev s ||
      match s with
      | [] => false
      | c :: r => wsRe c && copyMid word c r

/-- local matcher for `(?i)\bCOPY\s+.*\bWORD\b` at one position. -/
def copyHere (word : List Char) (s : List Char) : Bool :=
  match ciStrip (str "COPY") s with
  | some r =>
    match r with
    | [] => false
    | c :: r2 => wsRe c && copyMid word c r2
  | none => false

/-- the PostgreSQL regexes `(?i)\bCOPY\s+.*\bTO\b` and
`(?i)\bCOPY\s+.*\bFROM\b`. -/
def copyPat (word : List Char) (s : List Char) : Bool :=
  patAny (fun c => !wordChar c) (copyHere word) s

/-- local matcher for `(?i)\bPRAGMA\s+\w+\s*=` at one position. -/
def pragmaHere (s : List Char) : Bool :=
  match ciStrip (str "PRAGMA") s with
  | some r =>
    match r with
    | [] => false
    | c :: _ =>
      if wsRe c then
        match r.dropWhile wsRe with
        | [] => false
        | c2 :: _ =>
          wordChar c2 &&
            ((((r.dropWhile wsRe).dropWhile wordChar).dropWhile wsRe).head? == some '=')
      else false
  | none => false

/-- the SQLite regex `(?i)\bPRAGMA\s+\w+\s*=`. -/
def pragmaWritePat (s : List Char) : Bool :=
  patAny (fun c => !wordChar c) pragmaHere s

/-- local matcher for `\s*SET\b` at one position. -/
def setAfter (s : List Char) : Bool :=
  match ciStrip (str "SET") (s.dropWhile wsRe) with
  | some rest =>
    match rest with
    | [] => true
    | c :: _ => !wordChar c
  | none => false

/-- scan for `;\s*SET\b` matches (the `;` alternative of the SET regex). -/
def setScan : List Char → Bool
  | [] => false
  | c :: r => (if c = ';' then setAfter r else false) || setScan r

/-- the regex `(?i)(?:^|;)\s*SET\b` of `validateCommon`. -/
def setPat (s : List Char) : Bool := setAfter s || setScan s

/-- a rule is a matcher together with the description used in the
rejection message, mirroring the `{pattern, desc}` structs of the Go
source. -/
abbrev Rule := (List Char → Bool) × List Char

/-- the Go loops `for _, x := range rules { if re.MatchString(s) return desc }`:
description of the first rule that matches, if any. -/
def firstMatch : List Rule → List Char → Option (List Char)
  | [], _ => none
  | (m, d) :: rest, s => if m s then some d else firstMatch rest s

/-- one entry of a dangerous-keyword table (the description is the
keyword text itself in the Go source). -/
def kwRule (kw : String) : Rule := (kwPat (str kw), str kw)

/-- one entry of a forbidden-function table `{(?i)\bNAME\s*\(, "NAME()"}`. -/
def funRule (name : String) (desc : String) : Rule := (funCallPat (str name), str desc)

/-- `commonDangerousKeywords` of the Go source: DML/DDL keywords blocked
by all databases. -/
def commonDangerousKeywords : List Rule :=
  [kwRule "INSERT", kwRule "UPDATE", kwRule "DELETE", kwRule "DROP", kwRule "CREATE",
    kwRule "ALTER", kwRule "TRUNCATE", kwRule "GRANT", kwRule "REVOKE"]

/-- the allowed leading keywords of `validateCommon` (Go variable
`allowedPrefixes`: each entry carries the trailing space). -/
def allowedLead : List (List Char) :=
  [str "SELECT ", str "SHOW ", str "DESCRIBE ", str "DESC ", str "EXPLAIN "]

/-- the loop over `allowedPrefixes` in `validateCommon`:
`strings.HasPrefix(upper, p) || upper == strings.TrimSpace(p)`. -/
def allowedStart (u : List Char) : Bool :=
  allowedLead.any (fun p => p.isPrefixOf u || u == trimGo p)

/-- everything after the first `;`, when there is one
(`strings.SplitN(cleaned, ";", 2)[1]`). -/
def afterFirstSemi : List Char → Option (List Char)
  | [] => none
  | c :: r => if c = ';' then some r else afterFirstSemi r

/-- the multi-statement test of `validateCommon`: the cleaned query
contains a `;` and the text after the first `;` is not whitespace-only. -/
def multiFire (s : List Char) : Bool :=
  match afterFirstSemi s with
  | some t => t.any (fun c => !wsGo c)
  | none => false

/-- `validateCommon(sqlQuery, cleanedSQL)` of the Go source; `none` means
the common checks pass, `some msg` is the rejection reason. -/
def validateCommon (raw cleaned : List Char) : Option (List Char) :=
  if trimGo raw = [] then some (str "empty query")
  else if allowedStart (upperL (trimGo raw)) = false then
    some (str "only SELECT, SHOW, DESCRIBE, and EXPLAIN queries are allowed")
  else if multiFire cleaned = true then some (str "multiple statements are not allowed")
  else
    match firstMatch commonDangerousKeywords cleaned with
    | some d => some (str "query contains forbidden keyword: " ++ d)
    | none =>
      if setPat cleaned = true then some (str "SET statements are not allowed") else none

/-- MySQL-specific forbidden patterns (matched against the raw query). -/
def mysqlForbidden : List Rule :=
  [(intoPat (str "OUTFILE"), str "INTO OUTFILE"),
    (intoPat (str "DUMPFILE"), str "INTO DUMPFILE"),
    funRule "LOAD_FILE" "LOAD_FILE()",
    (intoAtPat, str "INTO @variable")]

/-- MySQL-specific DoS functions (matched against the raw query). -/
def mysqlDos : List Rule :=
  [funRule "SLEEP" "SLEEP()", funRule "BENCHMARK" "BENCHMARK()",
    funRule "GET_LOCK" "GET_LOCK()", funRule "RELEASE_LOCK" "RELEASE_LOCK()",
    funRule "IS_FREE_LOCK" "IS_FREE_LOCK()", funRule "IS_USED_LOCK" "IS_USED_LOCK()",
    funRule "WAIT_FOR_EXECUTED_GTID_SET" "WAIT_FOR_EXECUTED_GTID_SET()",
    funRule "WAIT_UNTIL_SQL_THREAD_AFTER_GTIDS" "WAIT_UNTIL_SQL_THREAD_AFTER_GTIDS()",
    funRule "MASTER_POS_WAIT" "MASTER_POS_WAIT()",
    funRule "SOURCE_POS_WAIT" "SOURCE_POS_WAIT()"]

/-- MySQL-specific dangerous keywords (matched against the cleaned query). -/
def mysqlExtraKw : List Rule :=
  [kwRule "CALL", kwRule "EXEC", kwRule "EXECUTE", kwRule "REPLACE", kwRule "LOAD",
    kwRule "HANDLER", kwRule "RENAME"]

/-- the dialect-specific part of `MySQLAdapter.ValidateQuery` (the code
after the `validateCommon` early return). -/
def mysqlRest (raw cleaned : List Char) : Option (List Char) :=
  match firstMatch mysqlForbidden raw with
  | some d => some (str "query contains forbidden pattern: " ++ d)
  | none =>
    match firstMatch mysqlDos raw with
    | some d => some (str "query contains forbidden function: " ++ d)
    | none =>
      match firstMatch mysqlExtraKw cleaned with
      | some d => some (str "query contains forbidden keyword: " ++ d)
      | none => none

/-- `MySQLAdapter.ValidateQuery`. -/
def mysqlValidate (raw : List Char) : Option (List Char) :=
  match validateCommon raw (stripMySQL raw) with
  | some e => some e
  | none => mysqlRest raw (stripMySQL raw)

/-- PostgreSQL-specific forbidden patterns (matched against the raw query). -/
def pgForbidden : List Rule :=
  [(copyPat (str "TO"), str "COPY ... TO"),
    (copyPat (str "FROM"), str "COPY ... FROM"),
    funRule "pg_read_file" "pg_read_file()",
    funRule "pg_read_binary_file" "pg_read_binary_file()",
    funRule "pg_ls_dir" "pg_ls_dir()",
    funRule "lo_import" "lo_import()",
    funRule "lo_export" "lo_export()"]

/-- PostgreSQL-specific DoS functions (matched against the raw query). -/
def pgDos : List Rule :=
  [funRule "pg_sleep" "pg_sleep()", funRule "pg_sleep_for" "pg_sleep_for()",
    funRule "pg_sleep_until" "pg_sleep_until()",
    funRule "pg_advisory_lock" "pg_advisory_lock()",
    funRule "pg_advisory_xact_lock" "pg_advisory_xact_lock()",
    funRule "pg_try_advisory_lock" "pg_try_advisory_lock()"]

/-- PostgreSQL-specific dangerous keywords (matched against the cleaned
query). -/
def pgExtraKw : List Rule :=
  [kwRule "CALL", kwRule "EXECUTE", kwRule "COPY", kwRule "LISTEN", kwRule "NOTIFY",
    kwRule "PREPARE", kwRule "DEALLOCATE", kwRule "VACUUM", kwRule "REINDEX",
    kwRule "CLUSTER"]

/-- the dialect-specific part of `PostgresAdapter.ValidateQuery`. -/
def pgRest (raw cleaned : List Char) : Option (List Char) :=
  match firstMatch pgForbidden raw with
  | some d => some (str "query contains forbidden pattern: " ++ d)
  | none =>
    match firstMatch pgDos raw with
    | some d => some (str "query contains forbidden function: " ++ d)
    | none =>
      match firstMatch pgExtraKw cleaned with
      | some d => some (str "query contains forbidden keyword: " ++ d)
      | none => none

/-- `PostgresAdapter.ValidateQuery`. -/
def pgValidate (raw : List Char) : Option (List Char) :=
  match validateCommon raw (stripPostgres raw) with
  | some e => some e
  | none => pgRest raw (stripPostgres raw)

/-- SQLite-specific forbidden patterns (matched against the raw query). -/
def sqliteForbidden : List Rule :=
  [funRule "load_extension" "load_extension()",
    funRule "writefile" "writefile()",
    funRule "edit" "edit()",
    funRule "fts3_tokenizer" "fts3_tokenizer()"]

/-- SQLite-specific dangerous keywords (matched against the cleaned
query). -/
def sqliteExtraKw : List Rule :=
  [kwRule "REPLACE", kwRule "ATTACH", kwRule "DETACH", kwRule "REINDEX", kwRule "VACUUM"]

/-- the dialect-specific part of `SQLiteAdapter.ValidateQuery`. -/
def sqliteRest (raw cleaned : List Char) : Option (List Char) :=
  match firstMatch sqliteForbidden raw with
  | some d => some (str "query contains forbidden pattern: " ++ d)
  | none =>
    match firstMatch sqliteExtraKw cleaned with
    | some d => some (str "query contains forbidden keyword: " ++ d)
    | none =>
      if pragmaWritePat cleaned = true then
        some (str "PRAGMA writes are not allowed")
      else none

/-- `SQLiteAdapter.ValidateQuery`. -/
def sqliteValidate (raw : List Char) : Option (List Char) :=
  match validateCommon raw (stripSQLite raw) with
  | some e => some e
  | none => sqliteRest raw (stripSQLite raw)

theorem firstMatch_eq_none {rules : List Rule} {s : List Char} :
    firstMatch rules s = none ↔ ∀ rule ∈ rules, rule.1 s = false := by
  induction rules with
  | nil => simp [firstMatch]
  | cons p rest ih =>
    obtain ⟨m, d⟩ := p
    simp only [firstMatch]
    by_cases hm : m s
    · simp [hm]
    · simp only [Bool.not_eq_true] at hm
      simp [hm, ih]

theorem firstMatch_mem {rules : List Rule} {s : List Char} {d : List Char}
    (h : firstMatch rules s = some d) : ∃ rule ∈ rules, rule.2 = d := by
  induction rules with
  | nil => simp [firstMatch] at h
  | cons p rest ih =>
    obtain ⟨m, dd⟩ := p
    simp only [firstMatch] at h
    by_cases hm : m s
    · rw [if_pos hm] at h
      simp only [Option.some.injEq] at h
      exact ⟨(m, dd), by simp, h⟩
    · rw [if_neg hm] at h
      obtain ⟨rule, hr, hd⟩ := ih h
      exact ⟨rule, by simp [hr], hd⟩

theorem firstMatch_isSome {rules : List Rule} {s : List Char}
    (h : ∃ rule ∈ rules, rule.1 s = true) : (firstMatch rules s).isSome := by
  cases hf : firstMatch rules s with
  | some d => rfl
  | none =>
    obtain ⟨rule, hr, hm⟩ := h
    rw [firstMatch_eq_none.mp hf rule hr] at hm
    exact absurd hm (by simp)

theorem validateCommon_empty {raw cleaned : List Char} (h : trimGo raw = []) :
    validateCommon raw cleaned = some (str "empty query") := by
  rw [validateCommon, if_pos h]

theorem validateCommon_badLead {raw cleaned : List Char} (h : trimGo raw ≠ [])
    (h2 : allowedStart (upperL (trimGo raw)) = false) :
    validateCommon raw cleaned =
      some (str "only SELECT, SHOW, DESCRIBE, and EXPLAIN queries are allowed") := by
  rw [validateCommon, if_neg h, if_pos h2]

theorem validateCommon_multi {raw cleaned : List Char} (h : trimGo raw ≠ [])
    (h2 : allowedStart (upperL (trimGo raw)) = true) (h3 : multiFire cleaned = true) :
    validateCommon raw cleaned = some (str "multiple statements are not allowed") := by
  rw [validateCommon, if_neg h, if_neg (by simp [h2]), if_pos h3]

theorem validateCommon_late {raw cleaned : List Char} (h : trimGo raw ≠ [])
    (h2 : allowedStart (upperL (trimGo raw)) = true) (h3 : multiFire cleaned = false) :
    validateCommon raw cleaned =
      match firstMatch commonDangerousKeywords cleaned with
      | some d => some (str "query contains forbidden keyword: " ++ d)
      | none =>
        if setPat cleaned = true then some (str "SET statements are not allowed")
        else none := by
  rw [validateCommon, if_neg h, if_neg (by simp [h2]), if_neg (by simp [h3])]

theorem mysqlValidate_common {raw e : List Char}
    (h : validateCommon raw (stripMySQL raw) = some e) : mysqlValidate raw = some e := by
  rw [mysqlValidate, h]

theorem pgValidate_common {raw e : List Char}
    (h : validateCommon raw (stripPostgres raw) = some e) : pgValidate raw = some e := by
  rw [pgValidate, h]

theorem sqliteValidate_common {raw e : List Char}
    (h : validateCommon raw (stripSQLite raw) = some e) : sqliteValidate raw = some e := by
  rw [sqliteValidate, h]

theorem mysqlValidate_pass {raw : List Char}
    (h : validateCommon raw (stripMySQL raw) = none) :
    mysqlValidate raw = mysqlRest raw (stripMySQL raw) := by
  rw [mysqlValidate, h]

theorem pgValidate_pass {raw : List Char}
    (h : validateCommon raw (stripPostgres raw) = none) :
    pgValidate raw = pgRest raw (stripPostgres raw) := by
  rw [pgValidate, h]

theorem sqliteValidate_pass {raw : List Char}
    (h : validateCommon raw (stripSQLite raw) = none) :
    sqliteValidate raw = sqliteRest raw (stripSQLite raw) := by
  rw [sqliteValidate, h]

set_option maxRecDepth 100000

/-- a query of the shape used by the literal-immunity property:
the payload sits entirely inside a single-quoted string literal. -/
def litq (k : List Char) : List Char :=
  str "SELECT * FROM t WHERE c = " ++ squote :: (k ++ [squote])

/-- **C1** (counterexample).  The claim says any forbidden/DoS
function-call text inside a single-quoted literal is allowed; but the
forbidden-pattern and DoS-function regexes run against the raw query, so
`SELECT * FROM t WHERE c = 'SLEEP(1)'` is rejected by the MySQL
validator with the forbidden-function reason. -/
theorem c1_counterexample :
    mysqlValidate (litq (str "SLEEP(1)")) =
        some (str "query contains forbidden function: SLEEP()") ∧
      pgValidate (litq (str "pg_sleep(1)")) =
        some (str "query contains forbidden function: pg_sleep()") := by
  constructor
  · decide
  · decide

/-- **C1** (amended).  For every dialect, a query of the form
`SELECT * FROM t WHERE c = '<k>'` where `<k>` is any dangerous
*keyword* of that dialect's tables (the shared table and the
dialect-specific extra table) is allowed: keyword text inside a string
literal never triggers rejection.  (Function-call and pattern text is
*not* immune, because those regexes match the raw query; see the
counterexample.) -/
theorem c1_keyword_literal_immunity :
    ((commonDangerousKeywords ++ mysqlExtraKw).all
        (fun rule => mysqlValidate (litq rule.2) == none) = true) ∧
      ((commonDangerousKeywords ++ pgExtraKw).all
        (fun rule => pgValidate (litq rule.2) == none) = true) ∧
      ((commonDangerousKeywords ++ sqliteExtraKw).all
        (fun rule => sqliteValidate (litq rule.2) == none) = true) := by
  refine ⟨by decide, by decide, by decide⟩

/-- **C5**.  A doubled quote inside a single-quoted literal does not end
the literal early: every dialect strips `SELECT 'O''Brien'` to
`SELECT ''`, the rest of the input is still scanned
(`SELECT 'O''Brien' FROM t` strips to `SELECT '' FROM t`), and in the
MySQL dialect a backslash-escaped quote does not end the literal either. -/
theorem c5_escaped_quote_immunity :
    (stripMySQL (str "SELECT " ++ [squote, 'O', squote, squote] ++ str "Brien" ++ [squote]) =
        str "SELECT " ++ [squote, squote] ∧
      stripPostgres (str "SELECT " ++ [squote, 'O', squote, squote] ++ str "Brien" ++ [squote]) =
        str "SELECT " ++ [squote, squote] ∧
      stripSQLite (str "SELECT " ++ [squote, 'O', squote, squote] ++ str "Brien" ++ [squote]) =
        str "SELECT " ++ [squote, squote]) ∧
    (stripMySQL (str "SELECT " ++ [squote, 'O', squote, squote] ++ str "Brien" ++ [squote] ++
          str " FROM t") = str "SELECT " ++ [squote, squote] ++ str " FROM t" ∧
      stripPostgres (str "SELECT " ++ [squote, 'O', squote, squote] ++ str "Brien" ++ [squote] ++
          str " FROM t") = str "SELECT " ++ [squote, squote] ++ str " FROM t" ∧
      stripSQLite (str "SELECT " ++ [squote, 'O', squote, squote] ++ str "Brien" ++ [squote] ++
          str " FROM t") = str "SELECT " ++ [squote, squote] ++ str " FROM t") ∧
    stripMySQL (str "SELECT " ++ [squote, 'I', 't', bslash, squote, 's', squote] ++
        str " FROM t") = str "SELECT " ++ [squote, squote] ++ str " FROM t" := by
  exact ⟨⟨by decide, by decide, by decide⟩, ⟨by decide, by decide, by decide⟩, by decide⟩

/-- **C7**.  Dialect-specific DoS functions are rejected only in their
own dialect: `SELECT SLEEP(1)` is rejected by the MySQL validator with
the forbidden-function reason and allowed by the PostgreSQL and SQLite
validators; `SELECT pg_sleep(1)` is rejected by the PostgreSQL validator
and allowed by the MySQL and SQLite validators. -/
theorem c7_dialect_dos_functions :
    (mysqlValidate (str "SELECT SLEEP(1)") =
        some (str "query contains forbidden function: SLEEP()") ∧
      pgValidate (str "SELECT SLEEP(1)") = none ∧
      sqliteValidate (str "SELECT SLEEP(1)") = none) ∧
    (pgValidate (str "SELECT pg_sleep(1)") =
        some (str "query contains forbidden function: pg_sleep()") ∧
      mysqlValidate (str "SELECT pg_sleep(1)") = none ∧
      sqliteValidate (str "SELECT pg_sleep(1)") = none) := by
  exact ⟨⟨by decide, by decide, by decide⟩, ⟨by decide, by decide, by decide⟩⟩

/-- **C8** (counterexample).  The claim says the SQLite validator allows
`PRAGMA table_info('t')`; in fact any query starting with `PRAGMA`
already fails the allowed-prefix rule, so it is rejected. -/
theorem c8_counterexample :
    sqliteValidate (str "PRAGMA table_info(" ++ [squote, 't', squote, ')']) =
      some (str "only SELECT, SHOW, DESCRIBE, and EXPLAIN queries are allowed") := by
  decide

/-- **C8** (amended).  The SQLite validator rejects
`PRAGMA journal_mode = WAL` and also rejects `PRAGMA table_info('t')`
(both fail the allowed-prefix rule, since `PRAGMA` is not an allowed
leading keyword).  The mutating-versus-read pragma distinction applies
to queries that pass the prefix rule: `EXPLAIN PRAGMA journal_mode = WAL`
is rejected with the PRAGMA-write reason while
`EXPLAIN PRAGMA table_info('t')` is allowed. -/
theorem c8_pragma_rules :
    sqliteValidate (str "PRAGMA journal_mode = WAL") =
        some (str "only SELECT, SHOW, DESCRIBE, and EXPLAIN queries are allowed") ∧
      sqliteValidate (str "PRAGMA table_info(" ++ [squote, 't', squote, ')']) =
        some (str "only SELECT, SHOW, DESCRIBE, and EXPLAIN queries are allowed") ∧
      sqliteValidate (str "EXPLAIN PRAGMA journal_mode = WAL") =
        some (str "PRAGMA writes are not allowed") ∧
      sqliteValidate (str "EXPLAIN PRAGMA table_info(" ++ [squote, 't', squote, ')']) = none := by
  exact ⟨by decide, by decide, by decide, by decide⟩

/-- **C3**.  For every dialect, once the emptiness and prefix rules
pass, a cleaned query whose text after the first `;` is not
whitespace-only is rejected with the multi-statement reason
(`multiFire` is exactly that condition); in particular
`SELECT 1; DROP TABLE x` gets the multi-statement reason, not a keyword
reason, and `SELECT 1;` is allowed in every dialect. -/
theorem c3_multi_statement :
    (∀ raw : List Char, trimGo raw ≠ [] → allowedStart (upperL (trimGo raw)) = true →
      (multiFire (stripMySQL raw) = true →
        mysqlValidate raw = some (str "multiple statements are not allowed")) ∧
      (multiFire (stripPostgres raw) = true →
        pgValidate raw = some (str "multiple statements are not allowed")) ∧
      (multiFire (stripSQLite raw) = true →
        sqliteValidate raw = some (str "multiple statements are not allowed"))) ∧
    (mysqlValidate (str "SELECT 1; DROP TABLE x") =
        some (str "multiple statements are not allowed") ∧
      pgValidate (str "SELECT 1; DROP TABLE x") =
        some (str "multiple statements are not allowed") ∧
      sqliteValidate (str "SELECT 1; DROP TABLE x") =
        some (str "multiple statements are not allowed")) ∧
    (mysqlValidate (str "SELECT 1;") = none ∧ pgValidate (str "SELECT 1;") = none ∧
      sqliteValidate (str "SELECT 1;") = none) := by
  refine ⟨fun raw h1 h2 => ⟨fun h3 => ?_, fun h3 => ?_, fun h3 => ?_⟩,
    ⟨by decide, by decide, by decide⟩, ⟨by decide, by decide, by decide⟩⟩
  · exact mysqlValidate_common (validateCommon_multi h1 h2 h3)
  · exact pgValidate_common (validateCommon_multi h1 h2 h3)
  · exact sqliteValidate_common (validateCommon_multi h1 h2 h3)

/-- **C3** (witness): the general part applied at
`SELECT * FROM t; DELETE FROM t`. -/
theorem c3_multi_statement_witness :
    trimGo (str "SELECT * FROM t; DELETE FROM t") ≠ [] ∧
      allowedStart (upperL (trimGo (str "SELECT * FROM t; DELETE FROM t"))) = true ∧
      multiFire (stripMySQL (str "SELECT * FROM t; DELETE FROM t")) = true ∧
      mysqlValidate (str "SELECT * FROM t; DELETE FROM t") =
        some (str "multiple statements are not allowed") :=
  ⟨by decide, by decide, by decide,
    (c3_multi_statement.1 (str "SELECT * FROM t; DELETE FROM t") (by decide) (by decide)).1
      (by decide)⟩

/-- the five allowed leading keywords without the trailing space. -/
def bareLead : List (List Char) :=
  [str "SELECT", str "SHOW", str "DESCRIBE", str "DESC", str "EXPLAIN"]

theorem lead_decomp (kw u t : List Char) (hu : (kw ++ [' ']) ++ t = u) :
    kw.isPrefixOf u = true ∧ ((u.drop kw.length).head?.any wsGo) = true := by
  subst hu
  constructor
  · rw [List.append_assoc]
    exact List.isPrefixOf_iff_prefix.mpr ⟨[' '] ++ t, rfl⟩
  · rw [List.append_assoc, List.drop_left]
    simp [wsGo]

theorem allowedStart_false_of (u : List Char)
    (h : ∀ kw ∈ bareLead,
      ¬(kw.isPrefixOf u = true ∧ ((u.drop kw.length).head?.any wsGo) = true) ∧ u ≠ kw) :
    allowedStart u = false := by
  by_contra hc
  rw [Bool.not_eq_false, allowedStart, List.any_eq_true] at hc
  obtain ⟨p, hp, hmatch⟩ := hc
  rw [Bool.or_eq_true, beq_iff_eq] at hmatch
  have split5 : p = str "SELECT " ∨ p = str "SHOW " ∨ p = str "DESCRIBE " ∨
      p = str "DESC " ∨ p = str "EXPLAIN " := by
    simpa [allowedLead] using hp
  rcases split5 with hp5 | hp5 | hp5 | hp5 | hp5 <;> subst hp5 <;>
    rcases hmatch with hpre | hbare
  · obtain ⟨t, ht⟩ := List.isPrefixOf_iff_prefix.mp hpre
    exact (h (str "SELECT") (by decide)).1
      (lead_decomp (str "SELECT") u t (by simpa using ht))
  · exact (h (str "SELECT") (by decide)).2 (by simpa using hbare)
  · obtain ⟨t, ht⟩ := List.isPrefixOf_iff_prefix.mp hpre
    exact (h (str "SHOW") (by decide)).1
      (lead_decomp (str "SHOW") u t (by simpa using ht))
  · exact (h (str "SHOW") (by decide)).2 (by simpa using hbare)
  · obtain ⟨t, ht⟩ := List.isPrefixOf_iff_prefix.mp hpre
    exact (h (str "DESCRIBE") (by decide)).1
      (lead_decomp (str "DESCRIBE") u t (by simpa using ht))
  · exact (h (str "DESCRIBE") (by decide)).2 (by simpa using hbare)
  · obtain ⟨t, ht⟩ := List.isPrefixOf_iff_prefix.mp hpre
    exact (h (str "DESC") (by decide)).1
      (lead_decomp (str "DESC") u t (by simpa using ht))
  · exact (h (str "DESC") (by decide)).2 (by simpa using hbare)
  · obtain ⟨t, ht⟩ := List.isPrefixOf_iff_prefix.mp hpre
    exact (h (str "EXPLAIN") (by decide)).1
      (lead_decomp (str "EXPLAIN") u t (by simpa using ht))
  · exact (h (str "EXPLAIN") (by decide)).2 (by simpa using hbare)

/-- **C2** (counterexample).  The claim says the bare keyword alone is
accepted only for `DESC` and `DESCRIBE`; in fact the code compares the
trimmed query against every keyword with its space trimmed, so the bare
`SELECT` is accepted by every dialect. -/
theorem c2_counterexample :
    mysqlValidate (str "SELECT") = none ∧ pgValidate (str "SELECT") = none ∧
      sqliteValidate (str "SELECT") = none := by
  exact ⟨by decide, by decide, by decide⟩

/-- **C2** (amended).  For every dialect, every non-empty query whose
whitespace-trimmed, case-folded text neither starts with one of
`SELECT`, `SHOW`, `DESCRIBE`, `DESC`, `EXPLAIN` followed by whitespace
nor equals a bare keyword is rejected with the prefix reason (for
example `UPDATE t SET x=1`); the bare keyword alone is accepted as the
entire trimmed query for all five keywords, not only `DESC` and
`DESCRIBE`. -/
theorem c2_lead_enforcement :
    (∀ raw : List Char, trimGo raw ≠ [] →
      (∀ kw ∈ bareLead,
        ¬(kw.isPrefixOf (upperL (trimGo raw)) = true ∧
          (((upperL (trimGo raw)).drop kw.length).head?.any wsGo) = true) ∧
        upperL (trimGo raw) ≠ kw) →
      mysqlValidate raw =
          some (str "only SELECT, SHOW, DESCRIBE, and EXPLAIN queries are allowed") ∧
        pgValidate raw =
          some (str "only SELECT, SHOW, DESCRIBE, and EXPLAIN queries are allowed") ∧
        sqliteValidate raw =
          some (str "only SELECT, SHOW, DESCRIBE, and EXPLAIN queries are allowed")) ∧
    (mysqlValidate (str "UPDATE t SET x=1") =
        some (str "only SELECT, SHOW, DESCRIBE, and EXPLAIN queries are allowed") ∧
      pgValidate (str "UPDATE t SET x=1") =
        some (str "only SELECT, SHOW, DESCRIBE, and EXPLAIN queries are allowed") ∧
      sqliteValidate (str "UPDATE t SET x=1") =
        some (str "only SELECT, SHOW, DESCRIBE, and EXPLAIN queries are allowed")) ∧
    (bareLead.all
      (fun kw => (mysqlValidate kw == none) && (pgValidate kw == none) &&
        (sqliteValidate kw == none)) = true) := by
  refine ⟨fun raw h1 h2 => ?_, ⟨by decide, by decide, by decide⟩, by decide⟩
  have hlead := allowedStart_false_of (upperL (trimGo raw)) h2
  exact ⟨mysqlValidate_common (validateCommon_badLead h1 hlead),
    pgValidate_common (validateCommon_badLead h1 hlead),
    sqliteValidate_common (validateCommon_badLead h1 hlead)⟩

/-- **C2** (witness): the general part applied at `UPDATE t SET x=1`. -/
theorem c2_lead_enforcement_witness :
    trimGo (str "UPDATE t SET x=1") ≠ [] ∧
      mysqlValidate (str "UPDATE t SET x=1") =
        some (str "only SELECT, SHOW, DESCRIBE, and EXPLAIN queries are allowed") :=
  ⟨by decide,
    (c2_lead_enforcement.1 (str "UPDATE t SET x=1") (by decide) (by decide)).1⟩

theorem dropLine_nil {t : List Char} (h : '\n' ∉ t) : dropLine t = [] := by
  rw [dropLine, List.dropWhile_eq_nil_iff]
  intro x hx
  simp only [Bool.not_eq_true']
  rw [beq_eq_false_iff_ne]
  intro hxe
  exact h (hxe ▸ hx)

theorem skipBlock_nil : ∀ t : List Char, ¬ (str "*/") <:+: t → skipBlock t = [] := by
  intro t
  induction t using skipBlock.induct with
  | case1 => intro _; rfl
  | case2 => intro _; rfl
  | case3 a b r h =>
    intro hinf
    exfalso
    exact hinf ⟨[], r, by simp [str, h.1, h.2]⟩
  | case4 a b r h ih =>
    intro hinf
    rw [skipBlock, if_neg h]
    exact ih (fun hi => hinf (hi.trans (List.suffix_cons a (b :: r)).isInfix))

theorem skipSqM_nil : ∀ t : List Char, squote ∉ t → skipSqM t = [] := by
  intro t
  induction t using skipSqM.induct with
  | case1 => intro _; rfl
  | case2 => intro _; rfl
  | case3 r ih =>
    intro hm
    exact absurd (by simp : squote ∈ squote :: squote :: r) hm
  | case4 b r h =>
    intro hm
    exact absurd (by simp : squote ∈ squote :: b :: r) hm
  | case5 b r h ih =>
    intro hm
    rw [skipSqM, if_neg (by decide), if_pos rfl]
    exact ih (fun hx => hm (by simp [hx]))
  | case6 a b r h1 h2 ih =>
    intro hm
    rw [skipSqM, if_neg h1, if_neg h2]
    exact ih (fun hx => hm (by simp at hx ⊢; tauto))

theorem skipSq_nil : ∀ t : List Char, squote ∉ t → skipSq t = [] := by
  intro t
  induction t using skipSq.induct with
  | case1 => intro _; rfl
  | case2 => intro _; rfl
  | case3 r ih =>
    intro hm
    exact absurd (by simp : squote ∈ squote :: squote :: r) hm
  | case4 b r h =>
    intro hm
    exact absurd (by simp : squote ∈ squote :: b :: r) hm
  | case5 a b r h1 ih =>
    intro hm
    rw [skipSq, if_neg h1]
    exact ih (fun hx => hm (by simp at hx ⊢; tauto))

theorem copyTick_free : ∀ t : List Char, btick ∉ t → copyTick t = (t, []) := by
  intro t
  induction t with
  | nil => intro _; rfl
  | cons c r ih =>
    intro hm
    have hc : ¬c = btick := fun hh => hm (by simp [hh])
    rw [copyTick, if_neg hc, ih (fun hx => hm (by simp [hx]))]

theorem copyBrack_free : ∀ t : List Char, ']' ∉ t → copyBrack t = (t, []) := by
  intro t
  induction t with
  | nil => intro _; rfl
  | cons c r ih =>
    intro hm
    have hc : ¬c = ']' := fun hh => hm (by simp [hh])
    rw [copyBrack, if_neg hc, ih (fun hx => hm (by simp [hx]))]

theorem copyDq_free : ∀ t : List Char, dquote ∉ t → copyDq t = (t, []) := by
  intro t
  induction t using copyDq.induct with
  | case1 => intro _; rfl
  | case2 =>
    intro hm
    exact absurd (by simp : dquote ∈ [dquote]) hm
  | case3 c h =>
    intro hm
    rw [copyDq, if_neg h]
  | case4 r ih =>
    intro hm
    exact absurd (by simp : dquote ∈ dquote :: dquote :: r) hm
  | case5 b r h =>
    intro hm
    exact absurd (by simp : dquote ∈ dquote :: b :: r) hm
  | case6 a b r h1 ih =>
    intro hm
    rw [copyDq, if_neg h1, ih (fun hx => hm (by simp at hx ⊢; tauto))]

/-- **C9**.  Every dialect's stripper is a total function (each
`strip...` below is a total Lean definition) and on inputs ending inside
an unterminated construct it consumes to the end of the input and
returns normally: an unterminated block comment or line comment yields
its single-space placeholder, an unterminated single-quoted literal
yields the empty-literal placeholder, and an unterminated quoted
identifier is copied through to the end of the input. -/
theorem c9_unterminated_fail_safe :
    (∀ t : List Char, ¬ (str "*/") <:+: t →
      stripMySQL ('/' :: '*' :: t) = [' '] ∧ stripPostgres ('/' :: '*' :: t) = [' '] ∧
        stripSQLite ('/' :: '*' :: t) = [' ']) ∧
    (∀ t : List Char, '\n' ∉ t →
      stripMySQL ('-' :: '-' :: t) = [' '] ∧ stripPostgres ('-' :: '-' :: t) = [' '] ∧
        stripSQLite ('-' :: '-' :: t) = [' ']) ∧
    (∀ t : List Char, squote ∉ t →
      stripMySQL (squote :: t) = [squote, squote] ∧
        stripPostgres (squote :: t) = [squote, squote] ∧
        stripSQLite (squote :: t) = [squote, squote]) ∧
    (∀ t : List Char, btick ∉ t →
      stripMySQL (btick :: t) = btick :: t ∧ stripSQLite (btick :: t) = btick :: t) ∧
    (∀ t : List Char, dquote ∉ t →
      stripPostgres (dquote :: t) = dquote :: t ∧ stripSQLite (dquote :: t) = dquote :: t) ∧
    (∀ t : List Char, ']' ∉ t → stripSQLite ('[' :: t) = '[' :: t) := by
  refine ⟨fun t ht => ⟨?_, ?_, ?_⟩, fun t ht => ⟨?_, ?_, ?_⟩, fun t ht => ⟨?_, ?_, ?_⟩,
    fun t ht => ⟨?_, ?_⟩, fun t ht => ⟨?_, ?_⟩, fun t ht => ?_⟩
  · rw [stripMySQL_block ('*' :: t) rfl]
    simp [skipBlock_nil t ht, stripMySQL_nil]
  · rw [stripPostgres_block ('*' :: t) rfl]
    simp [skipBlock_nil t ht, stripPostgres_nil]
  · rw [stripSQLite_block ('*' :: t) rfl]
    simp [skipBlock_nil t ht, stripSQLite_nil]
  · rw [stripMySQL_dash ('-' :: t) rfl]
    have : dropLine ('-' :: t) = [] := dropLine_nil (by simp [ht])
    simp [this, stripMySQL_nil]
  · rw [stripPostgres_dash ('-' :: t) rfl]
    have : dropLine ('-' :: t) = [] := dropLine_nil (by simp [ht])
    simp [this, stripPostgres_nil]
  · rw [stripSQLite_dash ('-' :: t) rfl]
    have : dropLine ('-' :: t) = [] := dropLine_nil (by simp [ht])
    simp [this, stripSQLite_nil]
  · rw [stripMySQL_sq t]
    simp [skipSqM_nil t ht, stripMySQL_nil]
  · rw [stripPostgres_sq t]
    simp [skipSq_nil t ht, stripPostgres_nil]
  · rw [stripSQLite_sq t]
    simp [skipSq_nil t ht, stripSQLite_nil]
  · rw [stripMySQL_tick t]
    simp [copyTick_free t ht, stripMySQL_nil]
  · rw [stripSQLite_tick t]
    simp [copyTick_free t ht, stripSQLite_nil]
  · rw [stripPostgres_dq t]
    simp [copyDq_free t ht, stripPostgres_nil]
  · rw [stripSQLite_dq t]
    simp [copyDq_free t ht, stripSQLite_nil]
  · rw [stripSQLite_brack t]
    simp [copyBrack_free t ht, stripSQLite_nil]

/-- **C9** (witness): the fail-safe behaviour evaluated at concrete
unterminated inputs. -/
theorem c9_unterminated_fail_safe_witness :
    (¬ (str "*/") <:+: str "abc" ∧ stripMySQL (str "/*abc") = [' ']) ∧
      ('\n' ∉ str " x" ∧ stripPostgres (str "-- x") = [' ']) ∧
      (squote ∉ str "abc" ∧ stripSQLite (squote :: str "abc") = [squote, squote]) :=
  ⟨⟨by decide, (c9_unterminated_fail_safe.1 (str "abc") (by decide)).1⟩,
    ⟨by decide, (c9_unterminated_fail_safe.2.1 (str " x") (by decide)).2.1⟩,
    ⟨by decide, (c9_unterminated_fail_safe.2.2.1 (str "abc") (by decide)).2.2⟩⟩

theorem setMsg_ne_kwMsg :
    ∀ k ∈ commonDangerousKeywords.map (fun rule => rule.2),
      ¬(str "SET statements are not allowed" =
        str "query contains forbidden keyword: " ++ k) := by
  decide

theorem mysql_pat_ne_kwMsg :
    ∀ d ∈ mysqlForbidden.map (fun rule => rule.2),
      ∀ k ∈ commonDangerousKeywords.map (fun rule => rule.2),
        ¬(str "query contains forbidden pattern: " ++ d =
          str "query contains forbidden keyword: " ++ k) := by
  decide

theorem mysql_dos_ne_kwMsg :
    ∀ d ∈ mysqlDos.map (fun rule => rule.2),
      ∀ k ∈ commonDangerousKeywords.map (fun rule => rule.2),
        ¬(str "query contains forbidden function: " ++ d =
          str "query contains forbidden keyword: " ++ k) := by
  decide

theorem mysql_extra_ne_kwMsg :
    ∀ d ∈ mysqlExtraKw.map (fun rule => rule.2),
      ∀ k ∈ commonDangerousKeywords.map (fun rule => rule.2),
        ¬(str "query contains forbidden keyword: " ++ d =
          str "query contains forbidden keyword: " ++ k) := by
  decide

theorem pg_pat_ne_kwMsg :
    ∀ d ∈ pgForbidden.map (fun rule => rule.2),
      ∀ k ∈ commonDangerousKeywords.map (fun rule => rule.2),
        ¬(str "query contains forbidden pattern: " ++ d =
          str "query contains forbidden keyword: " ++ k) := by
  decide

theorem pg_dos_ne_kwMsg :
    ∀ d ∈ pgDos.map (fun rule => rule.2),
      ∀ k ∈ commonDangerousKeywords.map (fun rule => rule.2),
        ¬(str "query contains forbidden function: " ++ d =
          str "query contains forbidden keyword: " ++ k) := by
  decide

theorem pg_extra_ne_kwMsg :
    ∀ d ∈ pgExtraKw.map (fun rule => rule.2),
      ∀ k ∈ commonDangerousKeywords.map (fun rule => rule.2),
        ¬(str "query contains forbidden keyword: " ++ d =
          str "query contains forbidden keyword: " ++ k) := by
  decide

theorem sqlite_pat_ne_kwMsg :
    ∀ d ∈ sqliteForbidden.map (fun rule => rule.2),
      ∀ k ∈ commonDangerousKeywords.map (fun rule => rule.2),
        ¬(str "query contains forbidden pattern: " ++ d =
          str "query contains forbidden keyword: " ++ k) := by
  decide

theorem sqlite_extra_ne_kwMsg :
    ∀ d ∈ sqliteExtraKw.map (fun rule => rule.2),
      ∀ k ∈ commonDangerousKeywords.map (fun rule => rule.2),
        ¬(str "query contains forbidden keyword: " ++ d =
          str "query contains forbidden keyword: " ++ k) := by
  decide

theorem pragmaMsg_ne_kwMsg :
    ∀ k ∈ commonDangerousKeywords.map (fun rule => rule.2),
      ¬(str "PRAGMA writes are not allowed" =
        str "query contains forbidden keyword: " ++ k) := by
  decide

theorem c4_mysql (raw : List Char) (h1 : trimGo raw ≠ [])
    (h2 : allowedStart (upperL (trimGo raw)) = true)
    (h3 : multiFire (stripMySQL raw) = false) :
    (∃ rule ∈ commonDangerousKeywords, rule.1 (stripMySQL raw) = true) ↔
      (∃ k ∈ commonDangerousKeywords.map (fun rule => rule.2),
        mysqlValidate raw = some (str "query contains forbidden keyword: " ++ k)) := by
  have hvc := @validateCommon_late raw (stripMySQL raw) h1 h2 h3
  constructor
  · intro hex
    cases hf : firstMatch commonDangerousKeywords (stripMySQL raw) with
    | none =>
      obtain ⟨rule, hr, hm⟩ := hex
      rw [firstMatch_eq_none.mp hf rule hr] at hm
      exact absurd hm (by simp)
    | some d =>
      simp only [hf] at hvc
      obtain ⟨rule, hrm, hr2⟩ := firstMatch_mem hf
      exact ⟨d, List.mem_map.mpr ⟨rule, hrm, hr2⟩, mysqlValidate_common hvc⟩
  · rintro ⟨k, hk, hkeq⟩
    by_contra hno
    have hfm : firstMatch commonDangerousKeywords (stripMySQL raw) = none :=
      firstMatch_eq_none.mpr (fun rule hr => by
        cases hrb : rule.1 (stripMySQL raw) with
        | false => rfl
        | true => exact absurd ⟨rule, hr, hrb⟩ hno)
    simp only [hfm] at hvc
    by_cases hsp : setPat (stripMySQL raw) = true
    · rw [if_pos hsp] at hvc
      rw [mysqlValidate_common hvc] at hkeq
      simp only [Option.some.injEq] at hkeq
      exact setMsg_ne_kwMsg k hk hkeq
    · rw [if_neg hsp] at hvc
      rw [mysqlValidate_pass hvc] at hkeq
      rcases hp : firstMatch mysqlForbidden raw with _ | d
      · rcases hd : firstMatch mysqlDos raw with _ | d
        · rcases he : firstMatch mysqlExtraKw (stripMySQL raw) with _ | d
          · have : mysqlRest raw (stripMySQL raw) = none := by
              simp only [mysqlRest, hp, hd, he]
            rw [this] at hkeq
            exact absurd hkeq (by simp)
          · have : mysqlRest raw (stripMySQL raw) =
                some (str "query contains forbidden keyword: " ++ d) := by
              simp only [mysqlRest, hp, hd, he]
            rw [this] at hkeq
            simp only [Option.some.injEq] at hkeq
            obtain ⟨rule, hrm, hr2⟩ := firstMatch_mem he
            exact mysql_extra_ne_kwMsg d (List.mem_map.mpr ⟨rule, hrm, hr2⟩) k hk hkeq
        · have : mysqlRest raw (stripMySQL raw) =
              some (str "query contains forbidden function: " ++ d) := by
            simp only [mysqlRest, hp, hd]
          rw [this] at hkeq
          simp only [Option.some.injEq] at hkeq
          obtain ⟨rule, hrm, hr2⟩ := firstMatch_mem hd
          exact mysql_dos_ne_kwMsg d (List.mem_map.mpr ⟨rule, hrm, hr2⟩) k hk hkeq
      · have : mysqlRest raw (stripMySQL raw) =
            some (str "query contains forbidden pattern: " ++ d) := by
          simp only [mysqlRest, hp]
        rw [this] at hkeq
        simp only [Option.some.injEq] at hkeq
        obtain ⟨rule, hrm, hr2⟩ := firstMatch_mem hp
        exact mysql_pat_ne_kwMsg d (List.mem_map.mpr ⟨rule, hrm, hr2⟩) k hk hkeq

theorem c4_pg (raw : List Char) (h1 : trimGo raw ≠ [])
    (h2 : allowedStart (upperL (trimGo raw)) = true)
    (h3 : multiFire (stripPostgres raw) = false) :
    (∃ rule ∈ commonDangerousKeywords, rule.1 (stripPostgres raw) = true) ↔
      (∃ k ∈ commonDangerousKeywords.map (fun rule => rule.2),
        pgValidate raw = some (str "query contains forbidden keyword: " ++ k)) := by
  have hvc := @validateCommon_late raw (stripPostgres raw) h1 h2 h3
  constructor
  · intro hex
    cases hf : firstMatch commonDangerousKeywords (stripPostgres raw) with
    | none =>
      obtain ⟨rule, hr, hm⟩ := hex
      rw [firstMatch_eq_none.mp hf rule hr] at hm
      exact absurd hm (by simp)
    | some d =>
      simp only [hf] at hvc
      obtain ⟨rule, hrm, hr2⟩ := firstMatch_mem hf
      exact ⟨d, List.mem_map.mpr ⟨rule, hrm, hr2⟩, pgValidate_common hvc⟩
  · rintro ⟨k, hk, hkeq⟩
    by_contra hno
    have hfm : firstMatch commonDangerousKeywords (stripPostgres raw) = none :=
      firstMatch_eq_none.mpr (fun rule hr => by
        cases hrb : rule.1 (stripPostgres raw) with
        | false => rfl
        | true => exact absurd ⟨rule, hr, hrb⟩ hno)
    simp only [hfm] at hvc
    by_cases hsp : setPat (stripPostgres raw) = true
    · rw [if_pos hsp] at hvc
      rw [pgValidate_common hvc] at hkeq
      simp only [Option.some.injEq] at hkeq
      exact setMsg_ne_kwMsg k hk hkeq
    · rw [if_neg hsp] at hvc
      rw [pgValidate_pass hvc] at hkeq
      rcases hp : firstMatch pgForbidden raw with _ | d
      · rcases hd : firstMatch pgDos raw with _ | d
        · rcases he : firstMatch pgExtraKw (stripPostgres raw) with _ | d
          · have : pgRest raw (stripPostgres raw) = none := by
              simp only [pgRest, hp, hd, he]
            rw [this] at hkeq
            exact absurd hkeq (by simp)
          · have : pgRest raw (stripPostgres raw) =
                some (str "query contains forbidden keyword: " ++ d) := by
              simp only [pgRest, hp, hd, he]
            rw [this] at hkeq
            simp only [Option.some.injEq] at hkeq
            obtain ⟨rule, hrm, hr2⟩ := firstMatch_mem he
            exact pg_extra_ne_kwMsg d (List.mem_map.mpr ⟨rule, hrm, hr2⟩) k hk hkeq
        · have : pgRest raw (stripPostgres raw) =
              some (str "query contains forbidden function: " ++ d) := by
            simp only [pgRest, hp, hd]
          rw [this] at hkeq
          simp only [Option.some.injEq] at hkeq
          obtain ⟨rule, hrm, hr2⟩ := firstMatch_mem hd
          exact pg_dos_ne_kwMsg d (List.mem_map.mpr ⟨rule, hrm, hr2⟩) k hk hkeq
      · have : pgRest raw (stripPostgres raw) =
            some (str "query contains forbidden pattern: " ++ d) := by
          simp only [pgRest, hp]
        rw [this] at hkeq
        simp only [Option.some.injEq] at hkeq
        obtain ⟨rule, hrm, hr2⟩ := firstMatch_mem hp
        exact pg_pat_ne_kwMsg d (List.mem_map.mpr ⟨rule, hrm, hr2⟩) k hk hkeq

theorem c4_sqlite (raw : List Char) (h1 : trimGo raw ≠ [])
    (h2 : allowedStart (upperL (trimGo raw)) = true)
    (h3 : multiFire (stripSQLite raw) = false) :
    (∃ rule ∈ commonDangerousKeywords, rule.1 (stripSQLite raw) = true) ↔
      (∃ k ∈ commonDangerousKeywords.map (fun rule => rule.2),
        sqliteValidate raw = some (str "query contains forbidden keyword: " ++ k)) := by
  have hvc := @validateCommon_late raw (stripSQLite raw) h1 h2 h3
  constructor
  · intro hex
    cases hf : firstMatch commonDangerousKeywords (stripSQLite raw) with
    | none =>
      obtain ⟨rule, hr, hm⟩ := hex
      rw [firstMatch_eq_none.mp hf rule hr] at hm
      exact absurd hm (by simp)
    | some d =>
      simp only [hf] at hvc
      obtain ⟨rule, hrm, hr2⟩ := firstMatch_mem hf
      exact ⟨d, List.mem_map.mpr ⟨rule, hrm, hr2⟩, sqliteValidate_common hvc⟩
  · rintro ⟨k, hk, hkeq⟩
    by_contra hno
    have hfm : firstMatch commonDangerousKeywords (stripSQLite raw) = none :=
      firstMatch_eq_none.mpr (fun rule hr => by
        cases hrb : rule.1 (stripSQLite raw) with
        | false => rfl
        | true => exact absurd ⟨rule, hr, hrb⟩ hno)
    simp only [hfm] at hvc
    by_cases hsp : setPat (stripSQLite raw) = true
    · rw [if_pos hsp] at hvc
      rw [sqliteValidate_common hvc] at hkeq
      simp only [Option.some.injEq] at hkeq
      exact setMsg_ne_kwMsg k hk hkeq
    · rw [if_neg hsp] at hvc
      rw [sqliteValidate_pass hvc] at hkeq
      rcases hp : firstMatch sqliteForbidden raw with _ | d
      · rcases he : firstMatch sqliteExtraKw (stripSQLite raw) with _ | d
        · by_cases hpw : pragmaWritePat (stripSQLite raw) = true
          · have : sqliteRest raw (stripSQLite raw) =
                some (str "PRAGMA writes are not allowed") := by
              simp only [sqliteRest, hp, he, if_pos hpw]
            rw [this] at hkeq
            simp only [Option.some.injEq] at hkeq
            exact pragmaMsg_ne_kwMsg k hk hkeq
          · have : sqliteRest raw (stripSQLite raw) = none := by
              simp only [sqliteRest, hp, he, if_neg hpw]
            rw [this] at hkeq
            exact absurd hkeq (by simp)
        · have : sqliteRest raw (stripSQLite raw) =
              some (str "query contains forbidden keyword: " ++ d) := by
            simp only [sqliteRest, hp, he]
          rw [this] at hkeq
          simp only [Option.some.injEq] at hkeq
          obtain ⟨rule, hrm, hr2⟩ := firstMatch_mem he
          exact sqlite_extra_ne_kwMsg d (List.mem_map.mpr ⟨rule, hrm, hr2⟩) k hk hkeq
      · have : sqliteRest raw (stripSQLite raw) =
            some (str "query contains forbidden pattern: " ++ d) := by
          simp only [sqliteRest, hp]
        rw [this] at hkeq
        simp only [Option.some.injEq] at hkeq
        obtain ⟨rule, hrm, hr2⟩ := firstMatch_mem hp
        exact sqlite_pat_ne_kwMsg d (List.mem_map.mpr ⟨rule, hrm, hr2⟩) k hk hkeq

/-- **C4**.  For every dialect and every query passing the emptiness,
prefix, and multi-statement rules, the validator rejects with a reason
naming one of the nine shared dangerous keywords exactly when the
cleaned query contains one of them as a whole word (the word-boundary
regex of the source); occurrences embedded inside longer identifiers
(`created_at`, `updated_at`, `deleted`, `settings`) do not trigger
rejection. -/
theorem c4_dangerous_keywords :
    (∀ raw : List Char, trimGo raw ≠ [] → allowedStart (upperL (trimGo raw)) = true →
      (multiFire (stripMySQL raw) = false →
        ((∃ rule ∈ commonDangerousKeywords, rule.1 (stripMySQL raw) = true) ↔
          (∃ k ∈ commonDangerousKeywords.map (fun rule => rule.2),
            mysqlValidate raw = some (str "query contains forbidden keyword: " ++ k)))) ∧
      (multiFire (stripPostgres raw) = false →
        ((∃ rule ∈ commonDangerousKeywords, rule.1 (stripPostgres raw) = true) ↔
          (∃ k ∈ commonDangerousKeywords.map (fun rule => rule.2),
            pgValidate raw = some (str "query contains forbidden keyword: " ++ k)))) ∧
      (multiFire (stripSQLite raw) = false →
        ((∃ rule ∈ commonDangerousKeywords, rule.1 (stripSQLite raw) = true) ↔
          (∃ k ∈ commonDangerousKeywords.map (fun rule => rule.2),
            sqliteValidate raw = some (str "query contains forbidden keyword: " ++ k))))) ∧
    (([str "SELECT created_at FROM orders", str "SELECT updated_at FROM products",
        str "SELECT deleted FROM items", str "SELECT * FROM settings"]).all
      (fun q => (mysqlValidate q == none) && (pgValidate q == none) &&
        (sqliteValidate q == none)) = true) := by
  exact ⟨fun raw h1 h2 =>
    ⟨fun h3 => c4_mysql raw h1 h2 h3, fun h3 => c4_pg raw h1 h2 h3,
      fun h3 => c4_sqlite raw h1 h2 h3⟩, by decide⟩

/-- **C4** (witness): the iff applied at `SELECT * FROM t, DROP`, which
contains `DROP` as a whole word and is rejected with the keyword
reason. -/
theorem c4_dangerous_keywords_witness :
    trimGo (str "SELECT * FROM t, DROP") ≠ [] ∧
      allowedStart (upperL (trimGo (str "SELECT * FROM t, DROP"))) = true ∧
      multiFire (stripMySQL (str "SELECT * FROM t, DROP")) = false ∧
      (∃ k ∈ commonDangerousKeywords.map (fun rule => rule.2),
        mysqlValidate (str "SELECT * FROM t, DROP") =
          some (str "query contains forbidden keyword: " ++ k)) :=
  ⟨by decide, by decide, by decide,
    ((c4_dangerous_keywords.1 (str "SELECT * FROM t, DROP") (by decide) (by decide)).1
      (by decide)).mp (by decide)⟩

/-- the characters that can start a non-ordinary branch in any of the
three scanners. -/
def triggerChar (c : Char) : Bool :=
  (c == '-') || (c == '#') || (c == '/') || (c == squote) || (c == dquote) ||
    (c == btick) || (c == '$') || (c == '[')

theorem upChar_fixed_of_trigger {c : Char} (h : triggerChar c = true) : upChar c = c := by
  simp only [triggerChar, Bool.or_eq_true, beq_iff_eq] at h
  rcases h with ((((((h | h) | h) | h) | h) | h) | h) | h <;> subst h <;> decide

theorem upChar_fixed_of_wsGo {c : Char} (h : wsGo c = true) : upChar c = c := by
  simp only [wsGo, Bool.or_eq_true, beq_iff_eq] at h
  rcases h with ((((h | h) | h) | h) | h) | h <;> subst h <;> decide

theorem triggerChar_false_of_up {c d : Char} (h : upChar c = d)
    (hd : triggerChar d = false) : triggerChar c = false := by
  cases htc : triggerChar c with
  | false => rfl
  | true =>
    rw [upChar_fixed_of_trigger htc] at h
    subst h
    rw [htc] at hd
    exact absurd hd (by simp)

theorem wsGo_false_of_up {c d : Char} (h : upChar c = d)
    (hd : wsGo d = false) : wsGo c = false := by
  cases htc : wsGo c with
  | false => rfl
  | true =>
    rw [upChar_fixed_of_wsGo htc] at h
    subst h
    rw [htc] at hd
    exact absurd hd (by simp)

theorem wsRe_false_of_up {c d : Char} (h : upChar c = d)
    (hd : wsGo d = false) : wsRe c = false := by
  have hg := wsGo_false_of_up h hd
  cases hre : wsRe c with
  | false => rfl
  | true =>
    exfalso
    simp only [wsRe, Bool.or_eq_true, beq_iff_eq] at hre
    simp only [wsGo, Bool.or_eq_false_iff, beq_eq_false_iff_ne] at hg
    rcases hre with (((h5 | h5) | h5) | h5) | h5 <;> subst h5 <;> tauto

theorem wsGo_not_trigger {c : Char} (h : wsGo c = true) : triggerChar c = false := by
  simp only [wsGo, Bool.or_eq_true, beq_iff_eq] at h
  rcases h with ((((h | h) | h) | h) | h) | h <;> subst h <;> decide

theorem stripMySQL_plain {c : Char} (r : List Char) (h : triggerChar c = false) :
    stripMySQL (c :: r) = c :: stripMySQL r := by
  simp only [triggerChar, Bool.or_eq_false_iff, beq_eq_false_iff_ne] at h
  exact stripMySQL_ord c r (fun hh => h.1.1.1.1.1.1.1 hh.1) h.1.1.1.1.1.1.2
    (fun hh => h.1.1.1.1.1.2 hh.1) h.1.1.1.1.2 h.1.1.1.2 h.1.1.2

theorem stripPostgres_plain {c : Char} (r : List Char) (h : triggerChar c = false) :
    stripPostgres (c :: r) = c :: stripPostgres r := by
  simp only [triggerChar, Bool.or_eq_false_iff, beq_eq_false_iff_ne] at h
  exact stripPostgres_ord c r (fun hh => h.1.1.1.1.1.1.1 hh.1)
    (fun hh => h.1.1.1.1.1.2 hh.1) h.1.2 h.1.1.1.1.2 h.1.1.1.2

theorem stripSQLite_plain {c : Char} (r : List Char) (h : triggerChar c = false) :
    stripSQLite (c :: r) = c :: stripSQLite r := by
  simp only [triggerChar, Bool.or_eq_false_iff, beq_eq_false_iff_ne] at h
  exact stripSQLite_ord c r (fun hh => h.1.1.1.1.1.1.1 hh.1)
    (fun hh => h.1.1.1.1.1.2 hh.1) h.1.1.1.1.2 h.1.1.1.2 h.1.1.2 h.2

theorem stripMySQL_plainPre :
    ∀ pre r : List Char, (∀ c ∈ pre, triggerChar c = false) →
      stripMySQL (pre ++ r) = pre ++ stripMySQL r := by
  intro pre
  induction pre with
  | nil => intro r _; rfl
  | cons c w ih =>
    intro r h
    rw [List.cons_append, stripMySQL_plain (w ++ r) (h c (by simp)),
      ih r (fun a ha => h a (by simp [ha]))]
    rfl

theorem stripPostgres_plainPre :
    ∀ pre r : List Char, (∀ c ∈ pre, triggerChar c = false) →
      stripPostgres (pre ++ r) = pre ++ stripPostgres r := by
  intro pre
  induction pre with
  | nil => intro r _; rfl
  | cons c w ih =>
    intro r h
    rw [List.cons_append, stripPostgres_plain (w ++ r) (h c (by simp)),
      ih r (fun a ha => h a (by simp [ha]))]
    rfl

theorem stripSQLite_plainPre :
    ∀ pre r : List Char, (∀ c ∈ pre, triggerChar c = false) →
      stripSQLite (pre ++ r) = pre ++ stripSQLite r := by
  intro pre
  induction pre with
  | nil => intro r _; rfl
  | cons c w ih =>
    intro r h
    rw [List.cons_append, stripSQLite_plain (w ++ r) (h c (by simp)),
      ih r (fun a ha => h a (by simp [ha]))]
    rfl

theorem ciStrip_SET_one {c : Char} (rest : List Char) (h : upChar c ≠ 'S') :
    ciStrip (str "SET") (c :: rest) = none := by
  show (if upChar c = upChar 'S' then ciStrip (str "ET") rest else none) = none
  rw [if_neg (by rw [show upChar 'S' = 'S' from by decide]; exact h)]

theorem ciStrip_SET_none {c1 c2 c3 : Char} (x : List Char)
    (h : ¬(upChar c1 = 'S' ∧ upChar c2 = 'E' ∧ upChar c3 = 'T')) :
    ciStrip (str "SET") (c1 :: c2 :: c3 :: x) = none := by
  show (if upChar c1 = upChar 'S' then
    if upChar c2 = upChar 'E' then
      if upChar c3 = upChar 'T' then some x else none
    else none else none) = none
  rw [show upChar 'S' = 'S' from by decide, show upChar 'E' = 'E' from by decide,
    show upChar 'T' = 'T' from by decide]
  by_cases h1 : upChar c1 = 'S'
  · rw [if_pos h1]
    by_cases h2 : upChar c2 = 'E'
    · rw [if_pos h2]
      by_cases h3 : upChar c3 = 'T'
      · exact absurd ⟨h1, h2, h3⟩ h
      · rw [if_neg h3]
    · rw [if_neg h2]
  · rw [if_neg h1]

theorem setAfter_false_of_ciStrip {s : List Char}
    (h : ciStrip (str "SET") (s.dropWhile wsRe) = none) : setAfter s = false := by
  rw [setAfter, h]

theorem setAfter_any : ∀ r : List Char, setAfter r = true →
    r.any (fun c => !wsGo c) = true := by
  intro r
  induction r with
  | nil => intro h; exact absurd h (by decide)
  | cons c t ih =>
    intro h
    by_cases hre : wsRe c = true
    · have hstep : setAfter (c :: t) = setAfter t := by
        rw [setAfter, setAfter, List.dropWhile_cons_of_pos hre]
      rw [hstep] at h
      simp only [List.any_cons, Bool.or_eq_true]
      exact Or.inr (ih h)
    · by_cases hcu : upChar c = 'S'
      · simp only [List.any_cons, Bool.or_eq_true]
        exact Or.inl (by rw [wsGo_false_of_up hcu (by decide)]; rfl)
      · exfalso
        have : setAfter (c :: t) = false := by
          apply setAfter_false_of_ciStrip
          rw [List.dropWhile_cons_of_neg (by simp [hre])]
          exact ciStrip_SET_one t hcu
        rw [this] at h
        exact absurd h (by simp)

theorem afterFirstSemi_any {p : Char → Bool} :
    ∀ r t : List Char, afterFirstSemi r = some t → t.any p = true → r.any p = true := by
  intro r
  induction r with
  | nil => intro t h _; simp [afterFirstSemi] at h
  | cons c w ih =>
    intro t h hany
    simp only [afterFirstSemi] at h
    by_cases hc : c = ';'
    · rw [if_pos hc] at h
      simp only [Option.some.injEq] at h
      subst h
      simp only [List.any_cons, Bool.or_eq_true]
      exact Or.inr hany
    · rw [if_neg hc] at h
      simp only [List.any_cons, Bool.or_eq_true]
      exact Or.inr (ih t h hany)

theorem setScan_multiFire : ∀ s : List Char, setScan s = true → multiFire s = true := by
  intro s
  induction s with
  | nil => intro h; exact absurd h (by decide)
  | cons c r ih =>
    intro h
    simp only [setScan, Bool.or_eq_true] at h
    by_cases hc : c = ';'
    · subst hc
      rw [multiFire, show afterFirstSemi (';' :: r) = some r from by
        simp [afterFirstSemi]]
      rcases h with hA | hS
      · rw [if_pos rfl] at hA
        exact setAfter_any r hA
      · have hmr := ih hS
        rw [multiFire] at hmr
        rcases haf : afterFirstSemi r with _ | t
        · rw [haf] at hmr
          exact absurd hmr (by simp)
        · rw [haf] at hmr
          exact afterFirstSemi_any r t haf hmr
    · rcases h with hA | hS
      · rw [if_neg hc] at hA
        exact absurd hA (by simp)
      · have hmr := ih hS
        rw [multiFire] at hmr ⊢
        rw [show afterFirstSemi (c :: r) = afterFirstSemi r from by
          simp [afterFirstSemi, hc]]
        exact hmr

/-- the first three characters of an allowed leading keyword, upper-cased:
`SEL`, `SHO`, `DES` or `EXP`. -/
def leadTriple (c1 c2 c3 : Char) : Prop :=
  (upChar c1 = 'S' ∧ upChar c2 = 'E' ∧ upChar c3 = 'L') ∨
    (upChar c1 = 'S' ∧ upChar c2 = 'H' ∧ upChar c3 = 'O') ∨
    (upChar c1 = 'D' ∧ upChar c2 = 'E' ∧ upChar c3 = 'S') ∨
    (upChar c1 = 'E' ∧ upChar c2 = 'X' ∧ upChar c3 = 'P')

theorem leadTriple_not_SET {c1 c2 c3 : Char} (h : leadTriple c1 c2 c3) :
    ¬(upChar c1 = 'S' ∧ upChar c2 = 'E' ∧ upChar c3 = 'T') := by
  rintro ⟨h1, h2, h3⟩
  rcases h with ⟨g1, g2, g3⟩ | ⟨g1, g2, g3⟩ | ⟨g1, g2, g3⟩ | ⟨g1, g2, g3⟩
  · rw [h3] at g3; exact absurd g3 (by decide)
  · rw [h2] at g2; exact absurd g2 (by decide)
  · rw [h1] at g1; exact absurd g1 (by decide)
  · rw [h1] at g1; exact absurd g1 (by decide)

theorem leadTriple_first {c1 c2 c3 : Char} (h : leadTriple c1 c2 c3) :
    upChar c1 = 'S' ∨ upChar c1 = 'D' ∨ upChar c1 = 'E' := by
  rcases h with ⟨g1, _, _⟩ | ⟨g1, _, _⟩ | ⟨g1, _, _⟩ | ⟨g1, _, _⟩ <;> simp [g1]

theorem leadTriple_trigger {c1 c2 c3 : Char} (h : leadTriple c1 c2 c3) :
    triggerChar c1 = false ∧ triggerChar c2 = false ∧ triggerChar c3 = false := by
  rcases h with ⟨g1, g2, g3⟩ | ⟨g1, g2, g3⟩ | ⟨g1, g2, g3⟩ | ⟨g1, g2, g3⟩ <;>
    exact ⟨triggerChar_false_of_up g1 (by decide), triggerChar_false_of_up g2 (by decide),
      triggerChar_false_of_up g3 (by decide)⟩

theorem setAfter_false_of :
    ∀ w : List Char, ∀ c1 c2 c3 : Char, ∀ x : List Char,
      (∀ c ∈ w, wsGo c = true) → leadTriple c1 c2 c3 →
      setAfter (w ++ c1 :: c2 :: c3 :: x) = false := by
  intro w
  induction w with
  | nil =>
    intro c1 c2 c3 x _ ht
    apply setAfter_false_of_ciStrip
    have hre1 : wsRe c1 = false := by
      rcases leadTriple_first ht with h1 | h1 | h1 <;>
        exact wsRe_false_of_up h1 (by decide)
    rw [List.nil_append, List.dropWhile_cons_of_neg (by simp [hre1])]
    exact ciStrip_SET_none x (leadTriple_not_SET ht)
  | cons c w ih =>
    intro c1 c2 c3 x hw ht
    by_cases hre : wsRe c = true
    · have hstep : setAfter ((c :: w) ++ c1 :: c2 :: c3 :: x) =
          setAfter (w ++ c1 :: c2 :: c3 :: x) := by
        rw [setAfter, setAfter, List.cons_append, List.dropWhile_cons_of_pos hre]
      rw [hstep]
      exact ih c1 c2 c3 x (fun a ha => hw a (by simp [ha])) ht
    · apply setAfter_false_of_ciStrip
      rw [List.cons_append, List.dropWhile_cons_of_neg (by simp [hre])]
      apply ciStrip_SET_one
      have hcg : wsGo c = true := hw c (by simp)
      intro hS
      have := upChar_fixed_of_wsGo hcg
      rw [this] at hS
      subst hS
      exact absurd hcg (by decide)

theorem map_eq_cons3 {f : Char → Char} {l : List Char} {a b c : Char} {rest : List Char}
    (h : l.map f = a :: b :: c :: rest) :
    ∃ x y z t, l = x :: y :: z :: t ∧ f x = a ∧ f y = b ∧ f z = c := by
  match l with
  | [] => simp at h
  | [x] => simp at h
  | [x, y] => simp at h
  | x :: y :: z :: t =>
    simp only [List.map_cons, List.cons.injEq] at h
    exact ⟨x, y, z, t, rfl, h.1, h.2.1, h.2.2.1⟩

theorem lead_structure (raw : List Char) (h2 : allowedStart (upperL (trimGo raw)) = true) :
    ∃ w : List Char, ∃ c1 c2 c3 : Char, ∃ x : List Char,
      raw = w ++ c1 :: c2 :: c3 :: x ∧ (∀ c ∈ w, wsGo c = true) ∧ leadTriple c1 c2 c3 := by
  have hexists : ∃ c1 c2 c3 : Char, ∃ t : List Char,
      trimGo raw = c1 :: c2 :: c3 :: t ∧ leadTriple c1 c2 c3 := by
    rw [allowedStart, List.any_eq_true] at h2
    obtain ⟨p, hp, hm⟩ := h2
    rw [Bool.or_eq_true, beq_iff_eq] at hm
    have hp5 : p = str "SELECT " ∨ p = str "SHOW " ∨ p = str "DESCRIBE " ∨
        p = str "DESC " ∨ p = str "EXPLAIN " := by
      simpa [allowedLead] using hp
    have hup : upperL (trimGo raw) = (trimGo raw).map upChar := rfl
    rcases hp5 with hp5 | hp5 | hp5 | hp5 | hp5 <;> subst hp5 <;>
      rcases hm with hpre | hbare
    · obtain ⟨rest, hr⟩ := List.isPrefixOf_iff_prefix.mp hpre
      rw [hup] at hr
      have hm3 : (trimGo raw).map upChar = 'S' :: 'E' :: 'L' :: (str "ECT " ++ rest) := by
        rw [← hr]
        rfl
      obtain ⟨x, y, z, t, heq, f1, f2, f3⟩ := map_eq_cons3 hm3
      exact ⟨x, y, z, t, heq, Or.inl ⟨f1, f2, f3⟩⟩
    · rw [hup] at hbare
      have hm3 : (trimGo raw).map upChar = 'S' :: 'E' :: 'L' :: str "ECT" := by
        rw [hbare]
        decide
      obtain ⟨x, y, z, t, heq, f1, f2, f3⟩ := map_eq_cons3 hm3
      exact ⟨x, y, z, t, heq, Or.inl ⟨f1, f2, f3⟩⟩
    · obtain ⟨rest, hr⟩ := List.isPrefixOf_iff_prefix.mp hpre
      rw [hup] at hr
      have hm3 : (trimGo raw).map upChar = 'S' :: 'H' :: 'O' :: (str "W " ++ rest) := by
        rw [← hr]
        rfl
      obtain ⟨x, y, z, t, heq, f1, f2, f3⟩ := map_eq_cons3 hm3
      exact ⟨x, y, z, t, heq, Or.inr (Or.inl ⟨f1, f2, f3⟩)⟩
    · rw [hup] at hbare
      have hm3 : (trimGo raw).map upChar = 'S' :: 'H' :: 'O' :: str "W" := by
        rw [hbare]
        decide
      obtain ⟨x, y, z, t, heq, f1, f2, f3⟩ := map_eq_cons3 hm3
      exact ⟨x, y, z, t, heq, Or.inr (Or.inl ⟨f1, f2, f3⟩)⟩
    · obtain ⟨rest, hr⟩ := List.isPrefixOf_iff_prefix.mp hpre
      rw [hup] at hr
      have hm3 : (trimGo raw).map upChar = 'D' :: 'E' :: 'S' :: (str "CRIBE " ++ rest) := by
        rw [← hr]
        rfl
      obtain ⟨x, y, z, t, heq, f1, f2, f3⟩ := map_eq_cons3 hm3
      exact ⟨x, y, z, t, heq, Or.inr (Or.inr (Or.inl ⟨f1, f2, f3⟩))⟩
    · rw [hup] at hbare
      have hm3 : (trimGo raw).map upChar = 'D' :: 'E' :: 'S' :: str "CRIBE" := by
        rw [hbare]
        decide
      obtain ⟨x, y, z, t, heq, f1, f2, f3⟩ := map_eq_cons3 hm3
      exact ⟨x, y, z, t, heq, Or.inr (Or.inr (Or.inl ⟨f1, f2, f3⟩))⟩
    · obtain ⟨rest, hr⟩ := List.isPrefixOf_iff_prefix.mp hpre
      rw [hup] at hr
      have hm3 : (trimGo raw).map upChar = 'D' :: 'E' :: 'S' :: (str "C " ++ rest) := by
        rw [← hr]
        rfl
      obtain ⟨x, y, z, t, heq, f1, f2, f3⟩ := map_eq_cons3 hm3
      exact ⟨x, y, z, t, heq, Or.inr (Or.inr (Or.inl ⟨f1, f2, f3⟩))⟩
    · rw [hup] at hbare
      have hm3 : (trimGo raw).map upChar = 'D' :: 'E' :: 'S' :: str "C" := by
        rw [hbare]
        decide
      obtain ⟨x, y, z, t, heq, f1, f2, f3⟩ := map_eq_cons3 hm3
      exact ⟨x, y, z, t, heq, Or.inr (Or.inr (Or.inl ⟨f1, f2, f3⟩))⟩
    · obtain ⟨rest, hr⟩ := List.isPrefixOf_iff_prefix.mp hpre
      rw [hup] at hr
      have hm3 : (trimGo raw).map upChar = 'E' :: 'X' :: 'P' :: (str "LAIN " ++ rest) := by
        rw [← hr]
        rfl
      obtain ⟨x, y, z, t, heq, f1, f2, f3⟩ := map_eq_cons3 hm3
      exact ⟨x, y, z, t, heq, Or.inr (Or.inr (Or.inr ⟨f1, f2, f3⟩))⟩
    · rw [hup] at hbare
      have hm3 : (trimGo raw).map upChar = 'E' :: 'X' :: 'P' :: str "LAIN" := by
        rw [hbare]
        decide
      obtain ⟨x, y, z, t, heq, f1, f2, f3⟩ := map_eq_cons3 hm3
      exact ⟨x, y, z, t, heq, Or.inr (Or.inr (Or.inr ⟨f1, f2, f3⟩))⟩
  obtain ⟨c1, c2, c3, t, htrim, htriple⟩ := hexists
  have hsplit : List.takeWhile wsGo raw ++ List.dropWhile wsGo raw = raw :=
    List.takeWhile_append_dropWhile wsGo raw
  obtain ⟨tl, htl⟩ := List.rdropWhile_prefix wsGo (List.dropWhile wsGo raw)
  have htg : trimGo raw ++ tl = List.dropWhile wsGo raw := htl
  refine ⟨List.takeWhile wsGo raw, c1, c2, c3, t ++ tl, ?_, ?_, htriple⟩
  · calc raw = List.takeWhile wsGo raw ++ List.dropWhile wsGo raw := hsplit.symm
      _ = List.takeWhile wsGo raw ++ (trimGo raw ++ tl) := by rw [htg]
      _ = List.takeWhile wsGo raw ++ (c1 :: c2 :: c3 :: (t ++ tl)) := by
          rw [htrim]
          simp
  · intro c hc
    exact List.mem_takeWhile_imp hc

theorem setPat_false_mysql (raw : List Char)
    (h2 : allowedStart (upperL (trimGo raw)) = true)
    (h3 : multiFire (stripMySQL raw) = false) : setPat (stripMySQL raw) = false := by
  obtain ⟨w, c1, c2, c3, x, hraw, hw, ht⟩ := lead_structure raw h2
  have htrig : ∀ c ∈ w ++ [c1, c2, c3], triggerChar c = false := by
    intro c hc
    rcases List.mem_append.mp hc with hcw | hc3
    · exact wsGo_not_trigger (hw c hcw)
    · obtain ⟨t1, t2, t3⟩ := leadTriple_trigger ht
      rcases (by simpa using hc3 : c = c1 ∨ c = c2 ∨ c = c3) with h | h | h <;>
        subst h <;> assumption
  have hplain : stripMySQL raw = w ++ c1 :: c2 :: c3 :: stripMySQL x := by
    rw [hraw, show w ++ c1 :: c2 :: c3 :: x = (w ++ [c1, c2, c3]) ++ x by simp,
      stripMySQL_plainPre (w ++ [c1, c2, c3]) x htrig]
    simp
  have hA : setAfter (stripMySQL raw) = false := by
    rw [hplain]
    exact setAfter_false_of w c1 c2 c3 _ hw ht
  have hS : setScan (stripMySQL raw) = false := by
    cases hsc : setScan (stripMySQL raw) with
    | false => rfl
    | true =>
      rw [setScan_multiFire _ hsc] at h3
      exact absurd h3 (by simp)
  rw [setPat, hA, hS]
  rfl

theorem setPat_false_pg (raw : List Char)
    (h2 : allowedStart (upperL (trimGo raw)) = true)
    (h3 : multiFire (stripPostgres raw) = false) : setPat (stripPostgres raw) = false := by
  obtain ⟨w, c1, c2, c3, x, hraw, hw, ht⟩ := lead_structure raw h2
  have htrig : ∀ c ∈ w ++ [c1, c2, c3], triggerChar c = false := by
    intro c hc
    rcases List.mem_append.mp hc with hcw | hc3
    · exact wsGo_not_trigger (hw c hcw)
    · obtain ⟨t1, t2, t3⟩ := leadTriple_trigger ht
      rcases (by simpa using hc3 : c = c1 ∨ c = c2 ∨ c = c3) with h | h | h <;>
        subst h <;> assumption
  have hplain : stripPostgres raw = w ++ c1 :: c2 :: c3 :: stripPostgres x := by
    rw [hraw, show w ++ c1 :: c2 :: c3 :: x = (w ++ [c1, c2, c3]) ++ x by simp,
      stripPostgres_plainPre (w ++ [c1, c2, c3]) x htrig]
    simp
  have hA : setAfter (stripPostgres raw) = false := by
    rw [hplain]
    exact setAfter_false_of w c1 c2 c3 _ hw ht
  have hS : setScan (stripPostgres raw) = false := by
    cases hsc : setScan (stripPostgres raw) with
    | false => rfl
    | true =>
      rw [setScan_multiFire _ hsc] at h3
      exact absurd h3 (by simp)
  rw [setPat, hA, hS]
  rfl

theorem setPat_false_sqlite (raw : List Char)
    (h2 : allowedStart (upperL (trimGo raw)) = true)
    (h3 : multiFire (stripSQLite raw) = false) : setPat (stripSQLite raw) = false := by
  obtain ⟨w, c1, c2, c3, x, hraw, hw, ht⟩ := lead_structure raw h2
  have htrig : ∀ c ∈ w ++ [c1, c2, c3], triggerChar c = false := by
    intro c hc
    rcases List.mem_append.mp hc with hcw | hc3
    · exact wsGo_not_trigger (hw c hcw)
    · obtain ⟨t1, t2, t3⟩ := leadTriple_trigger ht
      rcases (by simpa using hc3 : c = c1 ∨ c = c2 ∨ c = c3) with h | h | h <;>
        subst h <;> assumption
  have hplain : stripSQLite raw = w ++ c1 :: c2 :: c3 :: stripSQLite x := by
    rw [hraw, show w ++ c1 :: c2 :: c3 :: x = (w ++ [c1, c2, c3]) ++ x by simp,
      stripSQLite_plainPre (w ++ [c1, c2, c3]) x htrig]
    simp
  have hA : setAfter (stripSQLite raw) = false := by
    rw [hplain]
    exact setAfter_false_of w c1 c2 c3 _ hw ht
  have hS : setScan (stripSQLite raw) = false := by
    cases hsc : setScan (stripSQLite raw) with
    | false => rfl
    | true =>
      rw [setScan_multiFire _ hsc] at h3
      exact absurd h3 (by simp)
  rw [setPat, hA, hS]
  rfl

theorem patPre_ne_setMsg (a : List Char) :
    ¬(str "query contains forbidden pattern: " ++ a =
      str "SET statements are not allowed") := by
  intro h
  have := congrArg List.head? h
  simp [str] at this

theorem funPre_ne_setMsg (a : List Char) :
    ¬(str "query contains forbidden function: " ++ a =
      str "SET statements are not allowed") := by
  intro h
  have := congrArg List.head? h
  simp [str] at this

theorem kwPre_ne_setMsg (a : List Char) :
    ¬(str "query contains forbidden keyword: " ++ a =
      str "SET statements are not allowed") := by
  intro h
  have := congrArg List.head? h
  simp [str] at this

theorem mysql_no_setMsg (raw : List Char) :
    mysqlValidate raw ≠ some (str "SET statements are not allowed") := by
  intro hkeq
  by_cases h1 : trimGo raw = []
  · rw [mysqlValidate_common (validateCommon_empty h1)] at hkeq
    exact absurd hkeq (by decide)
  by_cases h2 : allowedStart (upperL (trimGo raw)) = true
  · by_cases h3 : multiFire (stripMySQL raw) = true
    · rw [mysqlValidate_common (validateCommon_multi h1 h2 h3)] at hkeq
      exact absurd hkeq (by decide)
    · have h3f : multiFire (stripMySQL raw) = false := by simpa using h3
      have hsp : setPat (stripMySQL raw) = false := setPat_false_mysql raw h2 h3f
      have hvc := @validateCommon_late raw (stripMySQL raw) h1 h2 h3f
      rcases hf : firstMatch commonDangerousKeywords (stripMySQL raw) with _ | d
      · simp only [hf] at hvc
        rw [if_neg (by simp [hsp])] at hvc
        rw [mysqlValidate_pass hvc] at hkeq
        rcases hp : firstMatch mysqlForbidden raw with _ | d
        · rcases hd : firstMatch mysqlDos raw with _ | d
          · rcases he : firstMatch mysqlExtraKw (stripMySQL raw) with _ | d
            · have : mysqlRest raw (stripMySQL raw) = none := by
                simp only [mysqlRest, hp, hd, he]
              rw [this] at hkeq
              exact absurd hkeq (by simp)
            · have : mysqlRest raw (stripMySQL raw) =
                  some (str "query contains forbidden keyword: " ++ d) := by
                simp only [mysqlRest, hp, hd, he]
              rw [this] at hkeq
              simp only [Option.some.injEq] at hkeq
              exact kwPre_ne_setMsg d hkeq
          · have : mysqlRest raw (stripMySQL raw) =
                some (str "query contains forbidden function: " ++ d) := by
              simp only [mysqlRest, hp, hd]
            rw [this] at hkeq
            simp only [Option.some.injEq] at hkeq
            exact funPre_ne_setMsg d hkeq
        · have : mysqlRest raw (stripMySQL raw) =
              some (str "query contains forbidden pattern: " ++ d) := by
            simp only [mysqlRest, hp]
          rw [this] at hkeq
          simp only [Option.some.injEq] at hkeq
          exact patPre_ne_setMsg d hkeq
      · simp only [hf] at hvc
        rw [mysqlValidate_common hvc] at hkeq
        simp only [Option.some.injEq] at hkeq
        exact kwPre_ne_setMsg d hkeq
  · rw [mysqlValidate_common (validateCommon_badLead h1 (by simpa using h2))] at hkeq
    exact absurd hkeq (by decide)

theorem pg_no_setMsg (raw : List Char) :
    pgValidate raw ≠ some (str "SET statements are not allowed") := by
  intro hkeq
  by_cases h1 : trimGo raw = []
  · rw [pgValidate_common (validateCommon_empty h1)] at hkeq
    exact absurd hkeq (by decide)
  by_cases h2 : allowedStart (upperL (trimGo raw)) = true
  · by_cases h3 : multiFire (stripPostgres raw) = true
    · rw [pgValidate_common (validateCommon_multi h1 h2 h3)] at hkeq
      exact absurd hkeq (by decide)
    · have h3f : multiFire (stripPostgres raw) = false := by simpa using h3
      have hsp : setPat (stripPostgres raw) = false := setPat_false_pg raw h2 h3f
      have hvc := @validateCommon_late raw (stripPostgres raw) h1 h2 h3f
      rcases hf : firstMatch commonDangerousKeywords (stripPostgres raw) with _ | d
      · simp only [hf] at hvc
        rw [if_neg (by simp [hsp])] at hvc
        rw [pgValidate_pass hvc] at hkeq
        rcases hp : firstMatch pgForbidden raw with _ | d
        · rcases hd : firstMatch pgDos raw with _ | d
          · rcases he : firstMatch pgExtraKw (stripPostgres raw) with _ | d
            · have : pgRest raw (stripPostgres raw) = none := by
                simp only [pgRest, hp, hd, he]
              rw [this] at hkeq
              exact absurd hkeq (by simp)
            · have : pgRest raw (stripPostgres raw) =
                  some (str "query contains forbidden keyword: " ++ d) := by
                simp only [pgRest, hp, hd, he]
              rw [this] at hkeq
              simp only [Option.some.injEq] at hkeq
              exact kwPre_ne_setMsg d hkeq
          · have : pgRest raw (stripPostgres raw) =
                some (str "query contains forbidden function: " ++ d) := by
              simp only [pgRest, hp, hd]
            rw [this] at hkeq
            simp only [Option.some.injEq] at hkeq
            exact funPre_ne_setMsg d hkeq
        · have : pgRest raw (stripPostgres raw) =
              some (str "query contains forbidden pattern: " ++ d) := by
            simp only [pgRest, hp]
          rw [this] at hkeq
          simp only [Option.some.injEq] at hkeq
          exact patPre_ne_setMsg d hkeq
      · simp only [hf] at hvc
        rw [pgValidate_common hvc] at hkeq
        simp only [Option.some.injEq] at hkeq
        exact kwPre_ne_setMsg d hkeq
  · rw [pgValidate_common (validateCommon_badLead h1 (by simpa using h2))] at hkeq
    exact absurd hkeq (by decide)

theorem sqlite_no_setMsg (raw : List Char) :
    sqliteValidate raw ≠ some (str "SET statements are not allowed") := by
  intro hkeq
  by_cases h1 : trimGo raw = []
  · rw [sqliteValidate_common (validateCommon_empty h1)] at hkeq
    exact absurd hkeq (by decide)
  by_cases h2 : allowedStart (upperL (trimGo raw)) = true
  · by_cases h3 : multiFire (stripSQLite raw) = true
    · rw [sqliteValidate_common (validateCommon_multi h1 h2 h3)] at hkeq
      exact absurd hkeq (by decide)
    · have h3f : multiFire (stripSQLite raw) = false := by simpa using h3
      have hsp : setPat (stripSQLite raw) = false := setPat_false_sqlite raw h2 h3f
      have hvc := @validateCommon_late raw (stripSQLite raw) h1 h2 h3f
      rcases hf : firstMatch commonDangerousKeywords (stripSQLite raw) with _ | d
      · simp only [hf] at hvc
        rw [if_neg (by simp [hsp])] at hvc
        rw [sqliteValidate_pass hvc] at hkeq
        rcases hp : firstMatch sqliteForbidden raw with _ | d
        · rcases he : firstMatch sqliteExtraKw (stripSQLite raw) with _ | d
          · by_cases hpw : pragmaWritePat (stripSQLite raw) = true
            · have : sqliteRest raw (stripSQLite raw) =
                  some (str "PRAGMA writes are not allowed") := by
                simp only [sqliteRest, hp, he, if_pos hpw]
              rw [this] at hkeq
              exact absurd hkeq (by decide)
            · have : sqliteRest raw (stripSQLite raw) = none := by
                simp only [sqliteRest, hp, he, if_neg hpw]
              rw [this] at hkeq
              exact absurd hkeq (by simp)
          · have : sqliteRest raw (stripSQLite raw) =
                some (str "query contains forbidden keyword: " ++ d) := by
              simp only [sqliteRest, hp, he]
            rw [this] at hkeq
            simp only [Option.some.injEq] at hkeq
            exact kwPre_ne_setMsg d hkeq
        · have : sqliteRest raw (stripSQLite raw) =
              some (str "query contains forbidden pattern: " ++ d) := by
            simp only [sqliteRest, hp]
          rw [this] at hkeq
          simp only [Option.some.injEq] at hkeq
          exact patPre_ne_setMsg d hkeq
      · simp only [hf] at hvc
        rw [sqliteValidate_common hvc] at hkeq
        simp only [Option.some.injEq] at hkeq
        exact kwPre_ne_setMsg d hkeq
  · rw [sqliteValidate_common (validateCommon_badLead h1 (by simpa using h2))] at hkeq
    exact absurd hkeq (by decide)

/-- **C10**.  The rejection reason `SET statements are not allowed` is
unreachable: no input makes any dialect's validator return it.  A
cleaned query with `SET` at the very start is already rejected by the
allowed-prefix rule, and `SET` after a semicolon is already rejected by
the multi-statement rule, both of which run before the SET rule. -/
theorem c10_set_reason_unreachable (raw : List Char) :
    mysqlValidate raw ≠ some (str "SET statements are not allowed") ∧
      pgValidate raw ≠ some (str "SET statements are not allowed") ∧
      sqliteValidate raw ≠ some (str "SET statements are not allowed") :=
  ⟨mysql_no_setMsg raw, pg_no_setMsg raw, sqlite_no_setMsg raw⟩

theorem headSkipSqM : ∀ r c, (skipSqM r).head? = some c → c ≠ squote := by
  intro r
  induction r using skipSqM.induct with
  | case1 => intro c h; simp [skipSqM] at h
  | case2 => intro c h; simp [skipSqM] at h
  | case3 r ih =>
    intro c h
    rw [skipSqM, if_pos rfl, if_pos rfl] at h
    exact ih c h
  | case4 b r hb =>
    intro c h
    rw [skipSqM, if_pos rfl, if_neg hb] at h
    simp only [List.head?_cons, Option.some.injEq] at h
    subst h
    exact hb
  | case5 b r hs ih =>
    intro c h
    rw [skipSqM, if_neg (by decide), if_pos rfl] at h
    exact ih c h
  | case6 a b r h1 h2 ih =>
    intro c h
    rw [skipSqM, if_neg h1, if_neg h2] at h
    exact ih c h

theorem headSkipDqM : ∀ r c, (skipDqM r).head? = some c → c ≠ dquote := by
  intro r
  induction r using skipDqM.induct with
  | case1 => intro c h; simp [skipDqM] at h
  | case2 => intro c h; simp [skipDqM] at h
  | case3 r ih =>
    intro c h
    rw [skipDqM, if_pos rfl, if_pos rfl] at h
    exact ih c h
  | case4 b r hb =>
    intro c h
    rw [skipDqM, if_pos rfl, if_neg hb] at h
    simp only [List.head?_cons, Option.some.injEq] at h
    subst h
    exact hb
  | case5 b r hs ih =>
    intro c h
    rw [skipDqM, if_neg (by decide), if_pos rfl] at h
    exact ih c h
  | case6 a b r h1 h2 ih =>
    intro c h
    rw [skipDqM, if_neg h1, if_neg h2] at h
    exact ih c h

theorem headSkipSq : ∀ r c, (skipSq r).head? = some c → c ≠ squote := by
  intro r
  induction r using skipSq.induct with
  | case1 => intro c h; simp [skipSq] at h
  | case2 => intro c h; simp [skipSq] at h
  | case3 r ih =>
    intro c h
    rw [skipSq, if_pos rfl, if_pos rfl] at h
    exact ih c h
  | case4 b r hb =>
    intro c h
    rw [skipSq, if_pos rfl, if_neg hb] at h
    simp only [List.head?_cons, Option.some.injEq] at h
    subst h
    exact hb
  | case5 a b r h1 ih =>
    intro c h
    rw [skipSq, if_neg h1] at h
    exact ih c h

theorem headCopyDq : ∀ r c, ((copyDq r).2).head? = some c → c ≠ dquote := by
  intro r
  induction r using copyDq.induct with
  | case1 => intro c h; simp [copyDq] at h
  | case2 => intro c h; simp [copyDq] at h
  | case3 b hb =>
    intro c h
    rw [copyDq, if_neg hb] at h
    simp at h
  | case4 r ih =>
    intro c h
    rw [copyDq, if_pos rfl, if_pos rfl] at h
    exact ih c h
  | case5 b r hb =>
    intro c h
    rw [copyDq, if_pos rfl, if_neg hb] at h
    simp only [List.head?_cons, Option.some.injEq] at h
    subst h
    exact hb
  | case6 a b r h1 ih =>
    intro c h
    rw [copyDq, if_neg h1] at h
    exact ih c h

theorem headStripMySQL : ∀ s : List Char,
    (stripMySQL s).head? = some ' ' ∨ (stripMySQL s).head? = s.head? := by
  intro s
  cases s with
  | nil => exact Or.inr rfl
  | cons c r =>
    by_cases h1 : c = '-' ∧ r.head? = some '-'
    · obtain ⟨hc, hr⟩ := h1
      subst hc
      rw [stripMySQL_dash r hr]
      exact Or.inl rfl
    · by_cases h2 : c = '#'
      · subst h2
        rw [stripMySQL_hash r]
        exact Or.inl rfl
      · by_cases h3 : c = '/' ∧ r.head? = some '*'
        · obtain ⟨hc, hr⟩ := h3
          subst hc
          rw [stripMySQL_block r hr]
          exact Or.inl rfl
        · by_cases h4 : c = squote
          · subst h4
            rw [stripMySQL_sq r]
            exact Or.inr rfl
          · by_cases h5 : c = dquote
            · subst h5
              rw [stripMySQL_dq r]
              exact Or.inr rfl
            · by_cases h6 : c = btick
              · subst h6
                rw [stripMySQL_tick r]
                exact Or.inr rfl
              · rw [stripMySQL_ord c r h1 h2 h3 h4 h5 h6]
                exact Or.inr rfl

theorem headStripSQLite : ∀ s : List Char,
    (stripSQLite s).head? = some ' ' ∨ (stripSQLite s).head? = s.head? := by
  intro s
  cases s with
  | nil => exact Or.inr rfl
  | cons c r =>
    by_cases h1 : c = '-' ∧ r.head? = some '-'
    · obtain ⟨hc, hr⟩ := h1
      subst hc
      rw [stripSQLite_dash r hr]
      exact Or.inl rfl
    · by_cases h2 : c = '/' ∧ r.head? = some '*'
      · obtain ⟨hc, hr⟩ := h2
        subst hc
        rw [stripSQLite_block r hr]
        exact Or.inl rfl
      · by_cases h3 : c = squote
        · subst h3
          rw [stripSQLite_sq r]
          exact Or.inr rfl
        · by_cases h4 : c = dquote
          · subst h4
            rw [stripSQLite_dq r]
            exact Or.inr rfl
          · by_cases h5 : c = btick
            · subst h5
              rw [stripSQLite_tick r]
              exact Or.inr rfl
            · by_cases h6 : c = '['
              · subst h6
                rw [stripSQLite_brack r]
                exact Or.inr rfl
              · rw [stripSQLite_ord c r h1 h2 h3 h4 h5 h6]
                exact Or.inr rfl

theorem copyTick_append :
    ∀ b x : List Char, btick ∉ b → copyTick (b ++ btick :: x) = (b ++ [btick], x) := by
  intro b
  induction b with
  | nil => intro x _; rw [List.nil_append, copyTick, if_pos rfl]; rfl
  | cons c w ih =>
    intro x hm
    have hc : ¬c = btick := fun hh => hm (by simp [hh])
    rw [List.cons_append, copyTick, if_neg hc, ih x (fun hx => hm (by simp [hx]))]
    rfl

theorem copyBrack_append :
    ∀ b x : List Char, ']' ∉ b → copyBrack (b ++ ']' :: x) = (b ++ [']'], x) := by
  intro b
  induction b with
  | nil => intro x _; rw [List.nil_append, copyBrack, if_pos rfl]; rfl
  | cons c w ih =>
    intro x hm
    have hc : ¬c = ']' := fun hh => hm (by simp [hh])
    rw [List.cons_append, copyBrack, if_neg hc, ih x (fun hx => hm (by simp [hx]))]
    rfl

theorem splitFirst (q : Char) : ∀ r : List Char, q ∈ r →
    ∃ b x, r = b ++ q :: x ∧ q ∉ b := by
  intro r
  induction r with
  | nil => intro h; simp at h
  | cons c w ih =>
    intro h
    by_cases hc : c = q
    · subst hc
      exact ⟨[], w, rfl, by simp⟩
    · have hw : q ∈ w := by
        rcases List.mem_cons.mp h with h | h
        · exact absurd h.symm hc
        · exact h
      obtain ⟨b, x, hbx, hnb⟩ := ih hw
      exact ⟨c :: b, x, by rw [hbx]; rfl, by simp [hnb]; exact fun hh => hc hh.symm⟩

theorem copyDq_fst_ne_nil : ∀ b : Char, ∀ r : List Char, (copyDq (b :: r)).1 ≠ [] := by
  intro b r
  match r with
  | [] =>
    by_cases hb : b = dquote
    · subst hb; rw [copyDq, if_pos rfl]; simp
    · rw [copyDq, if_neg hb]; simp
  | c2 :: r2 =>
    by_cases hb : b = dquote
    · subst hb
      by_cases h2 : c2 = dquote
      · subst h2; rw [copyDq, if_pos rfl, if_pos rfl]; simp
      · rw [copyDq, if_pos rfl, if_neg h2]; simp
    · rw [copyDq, if_neg hb]; simp

theorem copyDq_comp : ∀ r X : List Char,
    (∀ c, X.head? = some c → c ≠ dquote) → ((copyDq r).2 = [] → X = []) →
    copyDq ((copyDq r).1 ++ X) = ((copyDq r).1, X) := by
  intro r
  induction r using copyDq.induct with
  | case1 =>
    intro X _ hnil
    rw [hnil rfl]
    rfl
  | case2 =>
    intro X _ hnil
    rw [hnil rfl]
    rfl
  | case3 b hb =>
    intro X _ hnil
    rw [copyDq, if_neg hb] at hnil ⊢
    rw [hnil rfl]
    simp only [List.append_nil]
    rw [copyDq, if_neg hb]
  | case4 r ih =>
    intro X hX hnil
    have heq : copyDq (dquote :: dquote :: r) =
        (dquote :: dquote :: (copyDq r).1, (copyDq r).2) := by
      rw [copyDq, if_pos rfl, if_pos rfl]
    rw [heq] at hnil ⊢
    simp only [List.cons_append]
    rw [copyDq, if_pos rfl, if_pos rfl]
    have := ih X hX hnil
    simp only [this]
  | case5 b r hb =>
    intro X hX _
    have heq : copyDq (dquote :: b :: r) = ([dquote], b :: r) := by
      rw [copyDq, if_pos rfl, if_neg hb]
    rw [heq]
    match X with
    | [] =>
      simp only [List.append_nil]
      rw [copyDq, if_pos rfl]
    | x :: xs =>
      have hx : ¬x = dquote := hX x rfl
      show copyDq (dquote :: x :: xs) = ([dquote], x :: xs)
      rw [copyDq, if_pos rfl, if_neg hx]
  | case6 a b r ha ih =>
    intro X hX hnil
    have heq : copyDq (a :: b :: r) = (a :: (copyDq (b :: r)).1, (copyDq (b :: r)).2) := by
      rw [copyDq, if_neg ha]
    rw [heq] at hnil ⊢
    rcases hp1 : (copyDq (b :: r)).1 with _ | ⟨c, cs⟩
    · exact absurd hp1 (copyDq_fst_ne_nil b r)
    · simp only [List.cons_append]
      rw [copyDq, if_neg ha]
      have := ih X hX hnil
      rw [hp1] at this
      simp only [List.cons_append] at this
      simp only [this]

theorem stripMySQL_idem_aux : ∀ n : Nat, ∀ s : List Char, s.length ≤ n →
    stripMySQL (stripMySQL s) = stripMySQL s := by
  intro n
  induction n with
  | zero =>
    intro s hs
    have : s = [] := List.length_eq_zero.mp (Nat.le_zero.mp hs)
    subst this
    rfl
  | succ n ih =>
    intro s hs
    cases s with
    | nil => rfl
    | cons c r =>
      simp only [List.length_cons, Nat.succ_le_succ_iff] at hs
      by_cases h1 : c = '-' ∧ r.head? = some '-'
      · obtain ⟨hc, hr⟩ := h1
        subst hc
        rw [stripMySQL_dash r hr,
          stripMySQL_ord ' ' _ (fun hh => absurd hh.1 (by decide)) (by decide)
            (fun hh => absurd hh.1 (by decide)) (by decide) (by decide) (by decide),
          ih (dropLine r) (le_trans (length_dropLine_le r) hs)]
      · by_cases h2 : c = '#'
        · subst h2
          rw [stripMySQL_hash r,
            stripMySQL_ord ' ' _ (fun hh => absurd hh.1 (by decide)) (by decide)
              (fun hh => absurd hh.1 (by decide)) (by decide) (by decide) (by decide),
            ih (dropLine r) (le_trans (length_dropLine_le r) hs)]
        · by_cases h3 : c = '/' ∧ r.head? = some '*'
          · obtain ⟨hc, hr⟩ := h3
            subst hc
            rw [stripMySQL_block r hr,
              stripMySQL_ord ' ' _ (fun hh => absurd hh.1 (by decide)) (by decide)
                (fun hh => absurd hh.1 (by decide)) (by decide) (by decide) (by decide),
              ih (skipBlock r.tail)
                (le_trans (le_trans (length_skipBlock_le r.tail) (length_tail_le r)) hs)]
          · by_cases h4 : c = squote
            · subst h4
              rw [stripMySQL_sq r]
              have hskip : skipSqM (squote :: stripMySQL (skipSqM r)) =
                  stripMySQL (skipSqM r) := by
                rcases hX : stripMySQL (skipSqM r) with _ | ⟨x, xs⟩
                · rfl
                · have hx : ¬x = squote := by
                    rcases headStripMySQL (skipSqM r) with hh | hh <;> rw [hX] at hh <;>
                      simp only [List.head?_cons, Option.some.injEq] at hh
                    · subst hh; decide
                    · exact headSkipSqM r x hh.symm
                  rw [skipSqM, if_pos rfl, if_neg hx]
              rw [stripMySQL_sq (squote :: stripMySQL (skipSqM r)), hskip,
                ih (skipSqM r) (le_trans (length_skipSqM_le r) hs)]
            · by_cases h5 : c = dquote
              · subst h5
                rw [stripMySQL_dq r]
                have hskip : skipDqM (dquote :: stripMySQL (skipDqM r)) =
                    stripMySQL (skipDqM r) := by
                  rcases hX : stripMySQL (skipDqM r) with _ | ⟨x, xs⟩
                  · rfl
                  · have hx : ¬x = dquote := by
                      rcases headStripMySQL (skipDqM r) with hh | hh <;> rw [hX] at hh <;>
                        simp only [List.head?_cons, Option.some.injEq] at hh
                      · subst hh; decide
                      · exact headSkipDqM r x hh.symm
                    rw [skipDqM, if_pos rfl, if_neg hx]
                rw [stripMySQL_dq (dquote :: stripMySQL (skipDqM r)), hskip,
                  ih (skipDqM r) (le_trans (length_skipDqM_le r) hs)]
              · by_cases h6 : c = btick
                · subst h6
                  rw [stripMySQL_tick r]
                  by_cases hmem : btick ∈ r
                  · obtain ⟨b, x, hbx, hnb⟩ := splitFirst btick r hmem
                    subst hbx
                    have hlenx : x.length ≤ n := by
                      have hl2 : (b ++ btick :: x).length = b.length + (x.length + 1) := by
                        rw [List.length_append]
                        rfl
                      omega
                    rw [copyTick_append b x hnb]
                    have hshape : (b ++ [btick]) ++ stripMySQL x =
                        b ++ btick :: stripMySQL x := by
                      simp
                    rw [hshape, stripMySQL_tick (b ++ btick :: stripMySQL x),
                      copyTick_append b (stripMySQL x) hnb]
                    rw [ih x hlenx, hshape]
                  · rw [copyTick_free r hmem]
                    simp only [stripMySQL_nil, List.append_nil]
                    rw [stripMySQL_tick r, copyTick_free r hmem]
                    simp [stripMySQL_nil]
                · rw [stripMySQL_ord c r h1 h2 h3 h4 h5 h6]
                  have c1 : ¬(c = '-' ∧ (stripMySQL r).head? = some '-') := by
                    rintro ⟨hc, hh⟩
                    rcases headStripMySQL r with hg | hg <;> rw [hh] at hg
                    · exact absurd hg (by decide)
                    · exact h1 ⟨hc, hg.symm⟩
                  have c3 : ¬(c = '/' ∧ (stripMySQL r).head? = some '*') := by
                    rintro ⟨hc, hh⟩
                    rcases headStripMySQL r with hg | hg <;> rw [hh] at hg
                    · exact absurd hg (by decide)
                    · exact h3 ⟨hc, hg.symm⟩
                  rw [stripMySQL_ord c (stripMySQL r) c1 h2 c3 h4 h5 h6, ih r hs]

theorem stripSQLite_idem_aux : ∀ n : Nat, ∀ s : List Char, s.length ≤ n →
    stripSQLite (stripSQLite s) = stripSQLite s := by
  intro n
  induction n with
  | zero =>
    intro s hs
    have : s = [] := List.length_eq_zero.mp (Nat.le_zero.mp hs)
    subst this
    rfl
  | succ n ih =>
    intro s hs
    cases s with
    | nil => rfl
    | cons c r =>
      simp only [List.length_cons, Nat.succ_le_succ_iff] at hs
      by_cases h1 : c = '-' ∧ r.head? = some '-'
      · obtain ⟨hc, hr⟩ := h1
        subst hc
        rw [stripSQLite_dash r hr,
          stripSQLite_ord ' ' _ (fun hh => absurd hh.1 (by decide))
            (fun hh => absurd hh.1 (by decide)) (by decide) (by decide) (by decide)
            (by decide),
          ih (dropLine r) (le_trans (length_dropLine_le r) hs)]
      · by_cases h2 : c = '/' ∧ r.head? = some '*'
        · obtain ⟨hc, hr⟩ := h2
          subst hc
          rw [stripSQLite_block r hr,
            stripSQLite_ord ' ' _ (fun hh => absurd hh.1 (by decide))
              (fun hh => absurd hh.1 (by decide)) (by decide) (by decide) (by decide)
              (by decide),
            ih (skipBlock r.tail)
              (le_trans (le_trans (length_skipBlock_le r.tail) (length_tail_le r)) hs)]
        · by_cases h3 : c = squote
          · subst h3
            rw [stripSQLite_sq r]
            have hskip : skipSq (squote :: stripSQLite (skipSq r)) =
                stripSQLite (skipSq r) := by
              rcases hX : stripSQLite (skipSq r) with _ | ⟨x, xs⟩
              · rfl
              · have hx : ¬x = squote := by
                  rcases headStripSQLite (skipSq r) with hh | hh <;> rw [hX] at hh <;>
                    simp only [List.head?_cons, Option.some.injEq] at hh
                  · subst hh; decide
                  · exact headSkipSq r x hh.symm
                rw [skipSq, if_pos rfl, if_neg hx]
            rw [stripSQLite_sq (squote :: stripSQLite (skipSq r)), hskip,
              ih (skipSq r) (le_trans (length_skipSq_le r) hs)]
          · by_cases h4 : c = dquote
            · subst h4
              rw [stripSQLite_dq r]
              have hX : ∀ a, (stripSQLite ((copyDq r).2)).head? = some a → a ≠ dquote := by
                intro a ha
                rcases headStripSQLite ((copyDq r).2) with hh | hh <;> rw [ha] at hh
                · have : a = ' ' := by simpa using hh
                  subst this
                  decide
                · exact headCopyDq r a hh.symm
              have hnil : (copyDq r).2 = [] → stripSQLite ((copyDq r).2) = [] := by
                intro hz
                rw [hz]
                rfl
              rw [stripSQLite_dq ((copyDq r).1 ++ stripSQLite ((copyDq r).2)),
                copyDq_comp r (stripSQLite ((copyDq r).2)) hX hnil,
                ih ((copyDq r).2) (le_trans (length_copyDq_le r) hs)]
            · by_cases h5 : c = btick
              · subst h5
                rw [stripSQLite_tick r]
                by_cases hmem : btick ∈ r
                · obtain ⟨b, x, hbx, hnb⟩ := splitFirst btick r hmem
                  subst hbx
                  have hlenx : x.length ≤ n := by
                    have hl2 : (b ++ btick :: x).length = b.length + (x.length + 1) := by
                      rw [List.length_append]
                      rfl
                    omega
                  rw [copyTick_append b x hnb]
                  have hshape : (b ++ [btick]) ++ stripSQLite x =
                      b ++ btick :: stripSQLite x := by
                    simp
                  rw [hshape, stripSQLite_tick (b ++ btick :: stripSQLite x),
                    copyTick_append b (stripSQLite x) hnb]
                  rw [ih x hlenx, hshape]
                · rw [copyTick_free r hmem]
                  simp only [stripSQLite_nil, List.append_nil]
                  rw [stripSQLite_tick r, copyTick_free r hmem]
                  simp [stripSQLite_nil]
              · by_cases h6 : c = '['
                · subst h6
                  rw [stripSQLite_brack r]
                  by_cases hmem : ']' ∈ r
                  · obtain ⟨b, x, hbx, hnb⟩ := splitFirst ']' r hmem
                    subst hbx
                    have hlenx : x.length ≤ n := by
                      have hl2 : (b ++ ']' :: x).length = b.length + (x.length + 1) := by
                        rw [List.length_append]
                        rfl
                      omega
                    rw [copyBrack_append b x hnb]
                    have hshape : (b ++ [']']) ++ stripSQLite x =
                        b ++ ']' :: stripSQLite x := by
                      simp
                    rw [hshape, stripSQLite_brack (b ++ ']' :: stripSQLite x),
                      copyBrack_append b (stripSQLite x) hnb]
                    rw [ih x hlenx, hshape]
                  · rw [copyBrack_free r hmem]
                    simp only [stripSQLite_nil, List.append_nil]
                    rw [stripSQLite_brack r, copyBrack_free r hmem]
                    simp [stripSQLite_nil]
                · rw [stripSQLite_ord c r h1 h2 h3 h4 h5 h6]
                  have c1 : ¬(c = '-' ∧ (stripSQLite r).head? = some '-') := by
                    rintro ⟨hc, hh⟩
                    rcases headStripSQLite r with hg | hg <;> rw [hh] at hg
                    · exact absurd hg (by decide)
                    · exact h1 ⟨hc, hg.symm⟩
                  have c2 : ¬(c = '/' ∧ (stripSQLite r).head? = some '*') := by
                    rintro ⟨hc, hh⟩
                    rcases headStripSQLite r with hg | hg <;> rw [hh] at hg
                    · exact absurd hg (by decide)
                    · exact h2 ⟨hc, hg.symm⟩
                  rw [stripSQLite_ord c (stripSQLite r) c1 c2 h3 h4 h5 h6, ih r hs]

/-- **C6** (counterexample).  The PostgreSQL stripper is not idempotent:
for the input `$T/*c*/$ x $T $` the first pass turns the block comment
into a space, which makes the two occurrences of `$T $` in the cleaned
text a matching dollar-quote pair, so a second pass collapses the whole
string to the empty-literal placeholder. -/
theorem c6_counterexample :
    stripPostgres (str "$T/*c*/$ x $T $") = str "$T $ x $T $" ∧
      stripPostgres (stripPostgres (str "$T/*c*/$ x $T $")) = [squote, squote] ∧
      stripPostgres (stripPostgres (str "$T/*c*/$ x $T $")) ≠
        stripPostgres (str "$T/*c*/$ x $T $") := by
  exact ⟨by decide, by decide, by decide⟩

/-- **C6** (amended).  Stripping is idempotent for the MySQL and SQLite
dialects: for every input string `q`, `strip (strip q) = strip q`.  It
is not idempotent for the PostgreSQL dialect (see the counterexample,
where comment removal creates a new matching dollar-quote tag). -/
theorem c6_strip_idempotent (q : List Char) :
    stripMySQL (stripMySQL q) = stripMySQL q ∧
      stripSQLite (stripSQLite q) = stripSQLite q :=
  ⟨stripMySQL_idem_aux q.length q le_rfl, stripSQLite_idem_aux q.length q le_rfl⟩
